import Mathlib

/-!
Verification of the incremental GradCafe scraping and record-extraction
pipeline (`module_2/scrape.py`, `module_5/src/load_data.py`,
`module_5/src/create_schema.py`, `module_5/src/app.py`).

The Python code is shallowly embedded: strings are Lean `String`s, Python
`datetime.date` values are `PyDate` triples of naturals, `None`-able values
are `Option`s, and the handful of regular expressions used by the scraper
are hand-compiled to executable backtracking matchers over `List Char`
that mirror each pattern's alternation and greediness order.  Numeric GRE
scores (produced in Python by `float(...)` on short decimal literals) are
modelled as rationals.  Python string predicates (`str.strip`,
`str.split`, `str.lower`, truthiness) are modelled over the ASCII
whitespace set, which covers every string the claims touch.
-/

namespace Gradcafe

/-- ASCII whitespace, matching the characters Python's `str.split`,
`str.strip` and the regex class `\s` treat as whitespace for the inputs
in scope. -/
def isPySpace (c : Char) : Bool :=
  c.toNat == 32 || c.toNat == 9 || c.toNat == 10 || c.toNat == 13 ||
    c.toNat == 11 || c.toNat == 12

/-- ASCII lowering, as applied by `str.lower` / `re.I` on the labels in
scope. -/
def lowerChar (c : Char) : Char :=
  if 65 ≤ c.toNat ∧ c.toNat ≤ 90 then Char.ofNat (c.toNat + 32) else c

def digitVal (c : Char) : Nat := c.toNat - 48

/-- Python's regex word class `\w` restricted to ASCII (used for `\b`). -/
def isWordC (c : Char) : Bool := c.isAlphanum || c == '_'

def pyStripChars (cs : List Char) : List Char :=
  ((cs.dropWhile isPySpace).reverse.dropWhile isPySpace).reverse

/-- `str.strip()`. -/
def pyStrip (s : String) : String := ⟨pyStripChars s.data⟩

/-- `str.split()` (split on whitespace runs, dropping empty fields),
with an accumulator for the current word. -/
def pyWordsAux : List Char → List Char → List (List Char)
  | [], acc => if acc = [] then [] else [acc.reverse]
  | c :: rest, acc =>
    if isPySpace c then
      if acc = [] then pyWordsAux rest []
      else acc.reverse :: pyWordsAux rest []
    else pyWordsAux rest (c :: acc)

def pyWords (cs : List Char) : List (List Char) := pyWordsAux cs []

/-- `" ".join(words)`. -/
def joinWordsSp : List (List Char) → List Char
  | [] => []
  | w :: ws =>
    match ws with
    | [] => w
    | _ :: _ => w ++ ' ' :: joinWordsSp ws

/-- `" ".join(s.split())`: collapse internal whitespace and trim. -/
def pyCollapse (s : String) : String :=
  ⟨joinWordsSp (pyWords s.data)⟩

/-- `str.lower()`. -/
def pyLower (s : String) : String := ⟨s.data.map lowerChar⟩

/-- Python truthiness of an optional string (`None` and `""` are falsy). -/
def pyTruthyOptS : Option String → Bool
  | some s => s != ""
  | none => false

/-- Python truthiness of an optional float (`None` and `0.0` are falsy);
scores are modelled as rationals. -/
def pyTruthyOptQ : Option ℚ → Bool
  | some q => q != 0
  | none => false

/-- A Python `datetime.date` (construction sites validate the triple). -/
structure PyDate where
  year : Nat
  month : Nat
  day : Nat
deriving DecidableEq, Repr

/-- `date.__lt__`: lexicographic on (year, month, day). -/
def dateLt (a b : PyDate) : Bool :=
  Nat.blt a.year b.year ||
    (a.year == b.year &&
      (Nat.blt a.month b.month ||
        (a.month == b.month && Nat.blt a.day b.day)))

/-- `date.__le__`. -/
def dateLe (a b : PyDate) : Bool := dateLt a b || a == b

/-- `MIN_OK = date(2000, 1, 1)` (scrape.py line 65). -/
def MIN_OK : PyDate := ⟨2000, 1, 1⟩

/-- `MAX_OK = date(2030, 12, 31)` (scrape.py line 66). -/
def MAX_OK : PyDate := ⟨2030, 12, 31⟩

/-- `_in_range` (scrape.py lines 68-69), on a present date. -/
def inRangeDate (d : PyDate) : Bool := dateLe MIN_OK d && dateLe d MAX_OK

def isLeap (y : Nat) : Bool :=
  y % 4 == 0 && (y % 100 != 0 || y % 400 == 0)

def daysInMonth (y m : Nat) : Nat :=
  if m == 2 then (if isLeap y then 29 else 28)
  else if m == 4 || m == 6 || m == 9 || m == 11 then 30
  else 31

/-- `datetime.date(y, m, d)` construction: raises (here `none`) outside
the calendar. -/
def mkValidDate (y m d : Nat) : Option PyDate :=
  if 1 ≤ y ∧ 1 ≤ m ∧ m ≤ 12 ∧ 1 ≤ d ∧ d ≤ daysInMonth y m then
    some ⟨y, m, d⟩
  else none

/-! ### strptime, for the five formats of `parse_added_on`

CPython's `_strptime` compiles each format to an anchored, case-insensitive
regex and requires full consumption of the input.  The directive regexes
are `%d ↦ 3[01]|[12]\d|0[1-9]|[1-9]`, `%m ↦ 1[0-2]|0[1-9]|[1-9]`,
`%Y ↦ \d{4}`, `%B`/`%b` ↦ the month-name alternation, and a whitespace run
in the format ↦ `\s+`.  Alternation branches are tried in order with
backtracking, which the candidate lists below reproduce. -/

def monthFullNames : List (String × Nat) :=
  [("january", 1), ("february", 2), ("march", 3), ("april", 4),
   ("may", 5), ("june", 6), ("july", 7), ("august", 8),
   ("september", 9), ("october", 10), ("november", 11), ("december", 12)]

def monthAbbrNames : List (String × Nat) :=
  [("jan", 1), ("feb", 2), ("mar", 3), ("apr", 4), ("may", 5), ("jun", 6),
   ("jul", 7), ("aug", 8), ("sep", 9), ("oct", 10), ("nov", 11), ("dec", 12)]

/-- Consume a literal, case-insensitively. -/
def matchLitCI : List Char → List Char → Option (List Char)
  | [], cs => some cs
  | _ :: _, [] => none
  | l :: ls, c :: cs =>
    if lowerChar l == lowerChar c then matchLitCI ls cs else none

def matchMonthIn (names : List (String × Nat)) (cs : List Char) :
    Option (Nat × List Char) :=
  names.findSome? fun nv =>
    (matchLitCI nv.1.data cs).map fun rest => (nv.2, rest)

/-- Backtracking candidates for `%d` = `3[01]|[12]\d|0[1-9]|[1-9]`,
in the regex's alternation order. -/
def dayCandidates : List Char → List (Nat × List Char)
  | c1 :: c2 :: rest =>
    (if c1 == '3' && (c2 == '0' || c2 == '1') then
        [(30 + digitVal c2, rest)] else []) ++
    (if (c1 == '1' || c1 == '2') && c2.isDigit then
        [(10 * digitVal c1 + digitVal c2, rest)] else []) ++
    (if c1 == '0' && ('1' ≤ c2 && c2 ≤ '9') then
        [(digitVal c2, rest)] else []) ++
    (if '1' ≤ c1 && c1 ≤ '9' then [(digitVal c1, c2 :: rest)] else [])
  | [c1] => if '1' ≤ c1 && c1 ≤ '9' then [(digitVal c1, [])] else []
  | [] => []

/-- Backtracking candidates for `%m` = `1[0-2]|0[1-9]|[1-9]`. -/
def monthNumCandidates : List Char → List (Nat × List Char)
  | c1 :: c2 :: rest =>
    (if c1 == '1' && (c2 == '0' || c2 == '1' || c2 == '2') then
        [(10 + digitVal c2, rest)] else []) ++
    (if c1 == '0' && ('1' ≤ c2 && c2 ≤ '9') then
        [(digitVal c2, rest)] else []) ++
    (if '1' ≤ c1 && c1 ≤ '9' then [(digitVal c1, c2 :: rest)] else [])
  | [c1] => if '1' ≤ c1 && c1 ≤ '9' then [(digitVal c1, [])] else []
  | [] => []

/-- `%Y` = exactly four digits. -/
def year4 : List Char → Option (Nat × List Char)
  | a :: b :: c :: d :: rest =>
    if a.isDigit && b.isDigit && c.isDigit && d.isDigit then
      some (1000 * digitVal a + 100 * digitVal b + 10 * digitVal c +
        digitVal d, rest)
    else none
  | _ => none

/-- `\s+`. -/
def eatSpace1 (cs : List Char) : Option (List Char) :=
  match cs with
  | c :: rest => if isPySpace c then some (rest.dropWhile isPySpace) else none
  | [] => none

/-- The five formats tried by `parse_added_on` (scrape.py lines 76-82),
in source order. -/
inductive DateFmt
  | BdY   -- "%B %d, %Y"
  | bdY   -- "%b %d, %Y"
  | Ymd   -- "%Y-%m-%d"
  | mdY   -- "%m/%d/%Y"
  | dbY   -- "%d-%b-%Y"
deriving DecidableEq, Repr

/-- Regex phase of `strptime` for a month-name format `"<month> %d, %Y"`. -/
def strpMonthNameSyn (names : List (String × Nat)) (cs : List Char) :
    Option (Nat × Nat × Nat) :=
  match matchMonthIn names cs with
  | none => none
  | some (m, r1) =>
    match eatSpace1 r1 with
    | none => none
    | some r2 =>
      (dayCandidates r2).findSome? fun dr =>
        match dr.2 with
        | ',' :: r4 =>
          match eatSpace1 r4 with
          | none => none
          | some r5 =>
            match year4 r5 with
            | some (y, []) => some (y, m, dr.1)
            | _ => none
        | _ => none

/-- Regex phase of `strptime "%Y-%m-%d"`. -/
def strpYmdSyn (cs : List Char) : Option (Nat × Nat × Nat) :=
  match year4 cs with
  | some (y, '-' :: r1) =>
    (monthNumCandidates r1).findSome? fun mr =>
      match mr.2 with
      | '-' :: r2 =>
        (dayCandidates r2).findSome? fun dr =>
          match dr.2 with
          | [] => some (y, mr.1, dr.1)
          | _ => none
      | _ => none
  | _ => none

/-- Regex phase of `strptime "%m/%d/%Y"`. -/
def strpMdYSyn (cs : List Char) : Option (Nat × Nat × Nat) :=
  (monthNumCandidates cs).findSome? fun mr =>
    match mr.2 with
    | '/' :: r1 =>
      (dayCandidates r1).findSome? fun dr =>
        match dr.2 with
        | '/' :: r2 =>
          match year4 r2 with
          | some (y, []) => some (y, mr.1, dr.1)
          | _ => none
        | _ => none
    | _ => none

/-- Regex phase of `strptime "%d-%b-%Y"`. -/
def strpDbYSyn (cs : List Char) : Option (Nat × Nat × Nat) :=
  (dayCandidates cs).findSome? fun dr =>
    match dr.2 with
    | '-' :: r1 =>
      match matchMonthIn monthAbbrNames r1 with
      | some (m, '-' :: r2) =>
        match year4 r2 with
        | some (y, []) => some (y, dr.1, m)
        | _ => none
      | _ => none
    | _ => none

def strptimeSyn : DateFmt → List Char → Option (Nat × Nat × Nat)
  | .BdY, cs => strpMonthNameSyn monthFullNames cs
  | .bdY, cs => strpMonthNameSyn monthAbbrNames cs
  | .Ymd, cs => strpYmdSyn cs
  | .mdY, cs => strpMdYSyn cs
  | .dbY, cs =>
    match strpDbYSyn cs with
    | some (y, d, m) => some (y, m, d)
    | none => none

/-- `datetime.strptime(s, fmt).date()`: the regex phase followed by
calendar validation by the `datetime` constructor. -/
def strptimeDate (f : DateFmt) (s : String) : Option PyDate :=
  match strptimeSyn f s.data with
  | some (y, m, d) => mkValidDate y m d
  | none => none

def scrapeDateFormats : List DateFmt := [.BdY, .bdY, .Ymd, .mdY, .dbY]

/-- The `for fmt in (...)` loop body of `parse_added_on` (scrape.py lines
76-88): the first format that parses wins; its result is range-filtered
and returned without trying further formats; a format whose parse raises
falls through to the next. -/
def tryFormatsScrape : List DateFmt → String → Option PyDate
  | [], _ => none
  | f :: fs, s =>
    match strptimeDate f s with
    | some d => if inRangeDate d then some d else none
    | none => tryFormatsScrape fs s

/-- `parse_added_on` (scrape.py lines 71-88). -/
def parse_added_on (s : Option String) : Option PyDate :=
  match s with
  | none => none
  | some str =>
    if str = "" then none
    else tryFormatsScrape scrapeDateFormats (pyStrip str)

/-! ### Regex searches used by `scrape_data` and `find_added_on_detail`

`re.search` tries match positions left to right; the scanner below carries
the previous character so matchers can decide the word-boundary `\b`. -/

def scanSearch (f : Option Char → List Char → Option α) :
    Option Char → List Char → Option α
  | prev, [] => f prev []
  | prev, c :: cs =>
    match f prev (c :: cs) with
    | some r => some r
    | none => scanSearch f (some c) cs

def atBoundary : Option Char → Bool
  | none => true
  | some c => !isWordC c

/-- `\b` against what follows a word character. -/
def boundaryEndOk : List Char → Bool
  | [] => true
  | c :: _ => !isWordC c

/-- `\bAdded on\s+` (shared prefix of the four "Added on" regexes). -/
def matchAddedOnPrefix (prev : Option Char) (cs : List Char) :
    Option (List Char) :=
  if atBoundary prev then
    match matchLitCI "added on".data cs with
    | some r => eatSpace1 r
    | none => none
  else none

/-- `\d{1,2}` with backtracking (greedy two digits, then one),
passing the consumed digits and the rest to the continuation. -/
def digits12Then (k : List Char → List Char → Option α) :
    List Char → Option α
  | a :: b :: rest =>
    if a.isDigit then
      if b.isDigit then
        match k [a, b] rest with
        | some r => some r
        | none => k [a] (b :: rest)
      else k [a] (b :: rest)
    else none
  | [a] => if a.isDigit then k [a] [] else none
  | [] => none

/-- The capture `([A-Za-z]+\s+\d{1,2},\s*\d{4})`, optionally followed by
`\b` (the card regex at scrape.py line 212 omits the trailing `\b`; the
detail regex at line 104 has it).  Returns the captured characters. -/
def matchMonthDateCap (requireB : Bool) (cs : List Char) :
    Option (List Char) :=
  let alphas := cs.takeWhile Char.isAlpha
  let r1 := cs.dropWhile Char.isAlpha
  if alphas = [] then none else
  let sp1 := r1.takeWhile isPySpace
  let r2 := r1.dropWhile isPySpace
  if sp1 = [] then none else
  digits12Then (fun dchars r3 =>
    match r3 with
    | ',' :: r4 =>
      let sp2 := r4.takeWhile isPySpace
      let r5 := r4.dropWhile isPySpace
      match r5 with
      | y1 :: y2 :: y3 :: y4 :: r6 =>
        if y1.isDigit && y2.isDigit && y3.isDigit && y4.isDigit &&
            (!requireB || boundaryEndOk r6) then
          some (alphas ++ sp1 ++ dchars ++ [','] ++ sp2 ++ [y1, y2, y3, y4])
        else none
      | _ => none
    | _ => none) r2

/-- The capture `(\d{4}-\d{2}-\d{2})\b` (scrape.py line 109). -/
def matchIsoCap (cs : List Char) : Option (List Char) :=
  match cs with
  | y1 :: y2 :: y3 :: y4 :: '-' :: m1 :: m2 :: '-' :: d1 :: d2 :: r =>
    if y1.isDigit && y2.isDigit && y3.isDigit && y4.isDigit &&
        m1.isDigit && m2.isDigit && d1.isDigit && d2.isDigit &&
        boundaryEndOk r then
      some [y1, y2, y3, y4, '-', m1, m2, '-', d1, d2]
    else none
  | _ => none

/-- The capture `(\d{1,2}/\d{1,2}/\d{4})\b` (scrape.py line 112). -/
def matchSlashCap (cs : List Char) : Option (List Char) :=
  digits12Then (fun d1c r1 =>
    match r1 with
    | '/' :: r2 =>
      digits12Then (fun d2c r3 =>
        match r3 with
        | '/' :: y1 :: y2 :: y3 :: y4 :: r4 =>
          if y1.isDigit && y2.isDigit && y3.isDigit && y4.isDigit &&
              boundaryEndOk r4 then
            some (d1c ++ ['/'] ++ d2c ++ ['/', y1, y2, y3, y4])
          else none
        | _ => none) r2
    | _ => none) cs

/-- `re.search(r"\bAdded on\s+([A-Za-z]+\s+\d{1,2},\s*\d{4})", card_text, re.I)`
(scrape.py line 212), returning `m.group(1)`. -/
def searchCardAdded (s : String) : Option String :=
  scanSearch (fun prev cs =>
    match matchAddedOnPrefix prev cs with
    | some r => (matchMonthDateCap false r).map fun cap => (⟨cap⟩ : String)
    | none => none) none s.data

/-- The long-month fallback regex of `find_added_on_detail`
(scrape.py line 104). -/
def searchDetailMonth (s : String) : Option String :=
  scanSearch (fun prev cs =>
    match matchAddedOnPrefix prev cs with
    | some r => (matchMonthDateCap true r).map fun cap => (⟨cap⟩ : String)
    | none => none) none s.data

/-- The ISO fallback regex of `find_added_on_detail` (scrape.py line 109). -/
def searchDetailIso (s : String) : Option String :=
  scanSearch (fun prev cs =>
    match matchAddedOnPrefix prev cs with
    | some r => (matchIsoCap r).map fun cap => (⟨cap⟩ : String)
    | none => none) none s.data

/-- The slash fallback regex of `find_added_on_detail` (scrape.py line 112). -/
def searchDetailSlash (s : String) : Option String :=
  scanSearch (fun prev cs =>
    match matchAddedOnPrefix prev cs with
    | some r => (matchSlashCap r).map fun cap => (⟨cap⟩ : String)
    | none => none) none s.data

/-! ### Detail-page documents

A detail page is abstracted by the `<dt>/<dd>` pairs it contains in
document order (each element modelled by its `get_text(" ", strip=True)`
output; a `<dt>` with no following `<dd>` sibling has `dd = none`) and by
the whole-page text `get_text(" ", strip=True)`. -/

structure DtPair where
  dt : String
  dd : Option String
deriving DecidableEq, Repr

structure DetailDoc where
  dtdd : List DtPair
  text : String
deriving DecidableEq, Repr

/-- `str.rstrip(":")` (removes every trailing colon). -/
def rstripColons (s : String) : String :=
  ⟨(s.data.reverse.dropWhile (· == ':')).reverse⟩

/-- The `<dt>/<dd>` loop of `find_added_on_detail` (scrape.py lines
93-100): the first pair whose label normalizes to "added on" and whose
`<dd>` text is non-empty wins. -/
def findAddedOnDtDd : List DtPair → Option String
  | [] => none
  | p :: rest =>
    if rstripColons (pyLower (pyStrip p.dt)) = "added on" then
      match p.dd with
      | some dd =>
        if dd ≠ "" then some dd else findAddedOnDtDd rest
      | none => findAddedOnDtDd rest
    else findAddedOnDtDd rest

/-- `find_added_on_detail` (scrape.py lines 90-116). -/
def find_added_on_detail (doc : DetailDoc) : Option String :=
  match findAddedOnDtDd doc.dtdd with
  | some v => some v
  | none =>
    match searchDetailMonth doc.text with
    | some cap => some cap
    | none =>
      match searchDetailIso doc.text with
      | some cap => some cap
      | none => searchDetailSlash doc.text

/-! ### GRE extraction (`extract_gre`, scrape.py lines 130-170)

Captured numbers become Python floats via `_to_float`; since every capture
is a 2-3 digit integer or a one-decimal value in `[0,6]`, they are modelled
exactly as rationals. -/

/-- `\s*`. -/
def eatSpaces (cs : List Char) : List Char := cs.dropWhile isPySpace

/-- `[:=]?` (greedy; safe without backtracking because `:`/`=` can satisfy
no later pattern element). -/
def eatOptColonEq : List Char → List Char
  | c :: rest => if c == ':' || c == '=' then rest else c :: rest
  | [] => []

/-- `(\d{2,3})` with backtracking (greedy three digits, then two), passing
the captured value and the rest to the continuation. -/
def matchInt23Then (k : Nat → List Char → Option α) :
    List Char → Option α
  | a :: b :: c :: rest =>
    if a.isDigit && b.isDigit then
      if c.isDigit then
        match k (100 * digitVal a + 10 * digitVal b + digitVal c) rest with
        | some r => some r
        | none => k (10 * digitVal a + digitVal b) (c :: rest)
      else k (10 * digitVal a + digitVal b) (c :: rest)
    else none
  | [a, b] =>
    if a.isDigit && b.isDigit then k (10 * digitVal a + digitVal b) []
    else none
  | _ => none

/-- `([0-6](?:\.\d)?)` with backtracking (greedy: with the fractional part
first, then without), passing the captured value and the rest to the
continuation. -/
def matchAw06Then (k : ℚ → List Char → Option α) :
    List Char → Option α
  | c :: rest =>
    if '0' ≤ c && c ≤ '6' then
      match rest with
      | '.' :: d :: r2 =>
        if d.isDigit then
          match k (Rat.divInt ((10 * digitVal c + digitVal d : Nat) : ℤ) 10)
              r2 with
          | some r => some r
          | none => k (digitVal c : ℚ) ('.' :: d :: r2)
        else k (digitVal c : ℚ) ('.' :: d :: r2)
      | _ => k (digitVal c : ℚ) rest
    else none
  | [] => none

/-- `\bQ\s*[:=]?\s*(\d{2,3})\b` at one position (scrape.py line 144),
and its `V` twin (line 145). -/
def matchLetterScoreAt (letter : Char) (prev : Option Char)
    (cs : List Char) : Option ℚ :=
  if atBoundary prev then
    match cs with
    | c :: r1 =>
      if lowerChar c == letter then
        matchInt23Then
          (fun n rest => if boundaryEndOk rest then some (n : ℚ) else none)
          (eatSpaces (eatOptColonEq (eatSpaces r1)))
      else none
    | [] => none
  else none

/-- The writing-label alternation `AW|A\.?W\.?|W(?:riting)?` expanded in
regex backtracking order. -/
def awLabelCandidates : List (List Char) :=
  ["aw".data, "a.w.".data, "a.w".data, "aw.".data, "aw".data,
   "writing".data, "w".data]

/-- `\b(?:AW|A\.?W\.?|W(?:riting)?)\s*[:=]?\s*([0-6](?:\.\d)?)\b` at one
position (scrape.py line 146). -/
def matchAwScoreAt (prev : Option Char) (cs : List Char) : Option ℚ :=
  if atBoundary prev then
    awLabelCandidates.findSome? fun cand =>
      match matchLitCI cand cs with
      | some r1 =>
        matchAw06Then
          (fun q rest => if boundaryEndOk rest then some q else none)
          (eatSpaces (eatOptColonEq (eatSpaces r1)))
      | none => none
  else none

/-- `\(X/Y/W\)\s*[:=]?\s*(\d{2,3})\s*/\s*(\d{2,3})\s*/\s*([0-6](?:\.\d)?)`
at one position (scrape.py lines 154 and 157); no `\b` anywhere. -/
def matchTripleAt (hint : List Char) (_prev : Option Char)
    (cs : List Char) : Option (Nat × Nat × ℚ) :=
  match matchLitCI hint cs with
  | some r1 =>
    matchInt23Then (fun n1 rest1 =>
      match eatSpaces rest1 with
      | '/' :: r2 =>
        matchInt23Then (fun n2 rest2 =>
          match eatSpaces rest2 with
          | '/' :: r3 =>
            matchAw06Then (fun q _ => some (n1, n2, q)) (eatSpaces r3)
          | _ => none) (eatSpaces r2)
      | _ => none) (eatSpaces (eatOptColonEq (eatSpaces r1)))
  | none => none

/-- `(\d{2,3})\s*Q\b` at one position (scrape.py line 162), and its `V`
twin (line 163); the digits are not boundary-anchored. -/
def matchNumLetterAt (letter : Char) (_prev : Option Char)
    (cs : List Char) : Option ℚ :=
  matchInt23Then (fun n rest =>
    match eatSpaces rest with
    | c :: r2 =>
      if lowerChar c == letter && boundaryEndOk r2 then some (n : ℚ)
      else none
    | [] => none) cs

/-- `([0-6](?:\.\d)?)\s*(?:AW|W)\b` at one position (scrape.py line 164). -/
def matchNumAwAt (_prev : Option Char) (cs : List Char) : Option ℚ :=
  matchAw06Then (fun q rest =>
    let r := eatSpaces rest
    match matchLitCI "aw".data r with
    | some r2 => if boundaryEndOk r2 then some q else none
    | none =>
      match matchLitCI "w".data r with
      | some r2 => if boundaryEndOk r2 then some q else none
      | none => none) cs

/-- Strategy 1 of `extract_gre` (scrape.py lines 143-149): the three
labeled-singleton searches, applied to the whitespace-collapsed text. -/
def labeledSingletons (t : String) : Option ℚ × Option ℚ × Option ℚ :=
  (scanSearch (matchLetterScoreAt 'q') none t.data,
   scanSearch (matchLetterScoreAt 'v') none t.data,
   scanSearch matchAwScoreAt none t.data)

/-- Strategy 2 of `extract_gre` (scrape.py lines 153-159): the two
parenthesized order hints, tried in source order, with the hint deciding
which capture is quantitative. -/
def parenTriple (t : String) : Option (ℚ × ℚ × ℚ) :=
  match scanSearch (matchTripleAt "(q/v/w)".data) none t.data with
  | some (a, b, c) => some ((a : ℚ), (b : ℚ), c)
  | none =>
    match scanSearch (matchTripleAt "(v/q/w)".data) none t.data with
    | some (a, b, c) => some ((b : ℚ), (a : ℚ), c)
    | none => none

/-- Strategy 3 of `extract_gre` (scrape.py lines 162-168): the three
suffix-letter searches. -/
def suffixScores (t : String) : Option ℚ × Option ℚ × Option ℚ :=
  (scanSearch (matchNumLetterAt 'q') none t.data,
   scanSearch (matchNumLetterAt 'v') none t.data,
   scanSearch matchNumAwAt none t.data)

/-- `extract_gre` (scrape.py lines 130-170). -/
def extract_gre (raw_text : String) :
    Option ℚ × Option ℚ × Option ℚ :=
  if raw_text = "" then (none, none, none)
  else
    let t := pyCollapse raw_text
    let s1 := labeledSingletons t
    if pyTruthyOptQ s1.1 || pyTruthyOptQ s1.2.1 || pyTruthyOptQ s1.2.2 then s1
    else
      match parenTriple t with
      | some (q, v, aw) => (some q, some v, some aw)
      | none =>
        let s3 := suffixScores t
        if s3.1.isSome || s3.2.1.isSome || s3.2.2.isSome then s3
        else (none, none, none)

/-! ### Field extraction and record assembly (scrape.py lines 54-63 and
208-302) -/

/-- `_text` (scrape.py lines 59-63) on an element's
`get_text(" ", strip=True)` output: collapse whitespace, empty becomes
`None`. -/
def textOf (s : String) : Option String :=
  let t := pyCollapse s
  if t = "" then none else some t

/-- Strip a single trailing colon (`t[:-1] if t.endswith(":") else t`). -/
def stripOneColon (s : String) : String :=
  if s.data.getLast? = some ':' then ⟨s.data.dropLast⟩ else s

/-- `_norm_label` (scrape.py lines 54-57): collapse whitespace, strip,
lowercase, then drop one trailing colon. -/
def norm_label (txt : String) : String :=
  stripOneColon (pyLower (pyStrip (pyCollapse txt)))

/-- Python-dict insertion on an association list kept in insertion order:
an existing key is overwritten in place, a new key is appended. -/
def dictInsert (d : List (String × String)) (k v : String) :
    List (String × String) :=
  if d.any (fun p => p.1 == k) then
    d.map fun p => if p.1 == k then (k, v) else p
  else d ++ [(k, v)]

def dictGet (d : List (String × String)) (k : String) : Option String :=
  (d.find? fun p => p.1 == k).map Prod.snd

/-- One iteration of the `<dt>/<dd>` collection loop of `scrape_data`
(scrape.py lines 238-245). -/
def fieldStep (data : List (String × String)) (p : DtPair) :
    List (String × String) :=
  match p.dd with
  | none => data
  | some ddS =>
    let label := norm_label ((textOf p.dt).getD "")
    match textOf ddS with
    | some v => if label ≠ "" then dictInsert data label v else data
    | none => data

/-- The `<dt>/<dd>` collection loop of `scrape_data` (scrape.py lines
237-245). -/
def extract_fields (pairs : List DtPair) : List (String × String) :=
  pairs.foldl fieldStep []

/-- Per-pair normalization following the specification's words: normalize
the label (trim, lowercase, collapse internal whitespace, strip a single
trailing colon) and the value (trim, collapse whitespace); keep the pair
only when both are non-empty. -/
def specNormPair (p : DtPair) : Option (String × String) :=
  match p.dd with
  | none => none
  | some ddS =>
    let label := stripOneColon (pyCollapse (pyLower (pyStrip p.dt)))
    let value := pyCollapse ddS
    if label ≠ "" ∧ value ≠ "" then some (label, value) else none

/-- `str(n)` for a Python float modelled as a rational: only used to build
digit strings, so this models Python `float(...)` on the finite
decimal/exponent literals it accepts; `inf`, `nan` and underscore forms
(never produced by the scraped fields in scope) map to `none`. -/
def natOfDigits (ds : List Char) : Nat :=
  ds.foldl (fun n c => 10 * n + digitVal c) 0

/-- `_to_float` (scrape.py lines 122-128) on a present string:
`float(str(s).strip())`, `None` on failure. -/
def pyFloatQ (s : String) : Option ℚ :=
  let cs0 := pyStripChars s.data
  let neg : Bool := match cs0 with
    | '-' :: _ => true
    | _ => false
  let cs1 := match cs0 with
    | '+' :: r => r
    | '-' :: r => r
    | _ => cs0
  let intds := cs1.takeWhile Char.isDigit
  let r1 := cs1.dropWhile Char.isDigit
  let hasDot : Bool := match r1 with
    | '.' :: _ => true
    | _ => false
  let afterDot := match r1 with
    | '.' :: r => r
    | _ => r1
  let fracds := if hasDot then afterDot.takeWhile Char.isDigit else []
  let r2 := if hasDot then afterDot.dropWhile Char.isDigit else r1
  if intds = [] ∧ fracds = [] then none
  else
    let num0 : ℤ := (natOfDigits (intds ++ fracds) : ℤ)
    let num1 : ℤ := if neg then -num0 else num0
    match r2 with
    | [] => some (Rat.divInt num1 ((10 ^ fracds.length : Nat) : ℤ))
    | e :: r3 =>
      if e == 'e' || e == 'E' then
        let eneg : Bool := match r3 with
          | '-' :: _ => true
          | _ => false
        let r4 := match r3 with
          | '+' :: r => r
          | '-' :: r => r
          | _ => r3
        let eds := r4.takeWhile Char.isDigit
        if eds ≠ [] ∧ r4.dropWhile Char.isDigit = [] then
          if eneg then
            some (Rat.divInt num1
              ((10 ^ (fracds.length + natOfDigits eds) : Nat) : ℤ))
          else
            some (Rat.divInt (num1 * ((10 ^ natOfDigits eds : Nat) : ℤ))
              ((10 ^ fracds.length : Nat) : ℤ))
        else none
      else none

/-- `strftime("%Y-%m-%d")` zero padding. -/
def pad2 (n : Nat) : String := if n < 10 then "0" ++ toString n else toString n

def pad4 (n : Nat) : String :=
  if n < 10 then "000" ++ toString n
  else if n < 100 then "00" ++ toString n
  else if n < 1000 then "0" ++ toString n
  else toString n

/-- `d.strftime("%Y-%m-%d")`. -/
def isoDate (d : PyDate) : String :=
  pad4 d.year ++ "-" ++ pad2 d.month ++ "-" ++ pad2 d.day

/-- First truthy value of a chain of `x or y or ...`, with a final `""`. -/
def firstTruthyS : List (Option String) → String
  | [] => ""
  | x :: rest => if pyTruthyOptS x then x.getD "" else firstTruthyS rest

/-- `filter(None, xs)` over optional strings (keeps truthy elements). -/
def pyFilterTruthy (xs : List (Option String)) : List String :=
  xs.filterMap fun x =>
    match x with
    | some s => if s ≠ "" then some s else none
    | none => none

/-- U+0027. -/
def aposS : String := String.singleton (Char.ofNat 39)

/-- U+2019 (a curly apostrophe, as it appears in scraped labels). -/
def curlyS : String := String.singleton (Char.ofNat 8217)

/-- The status attribute the specification describes: decision text plus
a space plus notification text when both detail-page fields are present,
the decision alone when only it is present, absent when the decision
field is absent. -/
def statusSpec (data : List (String × String)) : Option String :=
  match dictGet data "decision", dictGet data "notification" with
  | some dcs, some ntf => some (dcs ++ " " ++ ntf)
  | some dcs, none => some dcs
  | none, _ => none

/-- The output-record key `degree's country of origin`
(scrape.py line 284). -/
def degCountryLabel : String := "degree" ++ aposS ++ "s country of origin"

/-- One JSONL output record of `scrape_data` (scrape.py lines 277-290);
`gpa` is the raw detail-page string, scores are the extracted floats. -/
structure ScrapeRecord where
  program : String
  comments : Option String
  date_added : String
  url : String
  status : Option String
  term : Option String
  us_or_international : Option String
  degree : Option String
  gpa : Option String
  gre : Option ℚ
  gre_v : Option ℚ
  gre_aw : Option ℚ
deriving DecidableEq, Repr

/-- Record assembly for one detail page (scrape.py lines 234-290), given
the resolved authoritative date. -/
def buildRecord (doc : DetailDoc) (detailUrl : String) (d : PyDate) :
    ScrapeRecord :=
  let data := extract_fields doc.dtdd
  let institution := dictGet data "institution"
  let program_only := dictGet data "program"
  let combined_program :=
    if pyTruthyOptS program_only && pyTruthyOptS institution then
      program_only.getD "" ++ ", " ++ institution.getD ""
    else firstTruthyS [program_only, institution]
  let decision := dictGet data "decision"
  let notification := dictGet data "notification"
  let status :=
    if pyTruthyOptS decision && pyTruthyOptS notification then
      some (decision.getD "" ++ " " ++ notification.getD "")
    else if pyTruthyOptS decision then decision else none
  let comments := dictGet data "notes"
  let gq0 := (dictGet data "gre general").bind pyFloatQ
  let gv0 := (dictGet data "gre verbal").bind pyFloatQ
  let gaw0 := (dictGet data "analytical writing").bind pyFloatQ
  let scores :=
    if gq0.isNone || gv0.isNone || gaw0.isNone then
      let blob := String.intercalate " | " (pyFilterTruthy
        [program_only, institution, decision, notification, comments,
         dictGet data "test scores", dictGet data "additional info",
         dictGet data "score"])
      let t := extract_gre blob
      ((match gq0 with | some q => some q | none => t.1),
       (match gv0 with | some v => some v | none => t.2.1),
       (match gaw0 with | some a => some a | none => t.2.2))
    else (gq0, gv0, gaw0)
  { program := combined_program
    comments := comments
    date_added := isoDate d
    url := detailUrl
    status := status
    term := dictGet data "term"
    us_or_international := dictGet data degCountryLabel
    degree := dictGet data "degree type"
    gpa := dictGet data "undergrad gpa"
    gre := scores.1
    gre_v := scores.2.1
    gre_aw := scores.2.2 }

/-- One listing-card entry: the card's text, the absolute detail address
resolved from its anchor, and the detail fetch outcome (`none` models a
non-2xx detail response). -/
structure Entry where
  cardText : String
  detailUrl : String
  detail : Option DetailDoc
deriving DecidableEq, Repr

/-- `card_added` (scrape.py lines 212-213): the card regex capture fed to
`parse_added_on`. -/
def cardAddedOf (cardText : String) : Option PyDate :=
  match searchCardAdded cardText with
  | some cap => parse_added_on (some cap)
  | none => none

/-- The authoritative date resolution (scrape.py lines 224-228): the
detail page's parsed "Added on" wins, else the card estimate. -/
def resolvedDateOf (cardText : String) (doc : DetailDoc) : Option PyDate :=
  match parse_added_on (find_added_on_detail doc) with
  | some d => some d
  | none => cardAddedOf cardText

/-- The early card skip (scrape.py line 214):
`if card_added and card_added < since: continue`. -/
def cardSkip (since : PyDate) (e : Entry) : Bool :=
  match cardAddedOf e.cardText with
  | some d => dateLt d since
  | none => false

/-- Date resolution, cutoff check and record assembly for a fetched
detail page (scrape.py lines 224-302). -/
def processDoc (since : PyDate) (e : Entry) (doc : DetailDoc) :
    Option (ScrapeRecord × PyDate) :=
  match resolvedDateOf e.cardText doc with
  | none => none
  | some d =>
    if dateLt d since then none
    else some (buildRecord doc e.detailUrl d, d)

/-- The per-entry body of the listing loop (scrape.py lines 208-302):
early card skip, detail fetch, date resolution and cutoff check, record
assembly.  Returns the record together with its resolved date (used by
the run's min/max tracking). -/
def processEntry (since : PyDate) (e : Entry) :
    Option (ScrapeRecord × PyDate) :=
  if cardSkip since e then none
  else
    match e.detail with
    | none => none
    | some doc => processDoc since e doc

/-! ### The pagination loop and end-of-run watermark update
(`scrape_data`, scrape.py lines 176-332)

The upstream site is abstracted by the finite list of listing pages it
would serve in order; each page carries the HTTP status of its fetch and
its "See More" entries.  Stdout is modelled as the list of strings passed
to `print`, in order. -/

structure Page where
  status : Nat
  links : List Entry
deriving Repr

def appendedKey (n : Nat) : String :=
  "appended " ++ toString n ++ " records"

def fetchLine (page appended : Nat) : String :=
  "\rFetching page " ++ toString page ++ "... (appended so far: " ++
    toString appended ++ ")"

def httpStopLine (status page : Nat) : String :=
  "\nHTTP " ++ toString status ++ " on page " ++ toString page ++
    ", stopping."

def noLinksLine (page : Nat) : String :=
  "\nNo " ++ aposS ++ "See More" ++ aposS ++ " links on page " ++
    toString page ++ ", stopping."

def noNewLine (page : Nat) : String :=
  "\nNo new items encountered on page " ++ toString page ++ ". Stopping."

def finishedLine (page appended : Nat) : String :=
  "\nFinished page " ++ toString page ++ ", " ++ appendedKey appended ++
    " so far."

/-- The min/max tracking of scrape.py lines 297-302, folded over the
dates appended on one page. -/
def trackDates (minD maxD : Option PyDate) (ds : List PyDate) :
    Option PyDate × Option PyDate :=
  ds.foldl
    (fun mm d =>
      if inRangeDate d then
        ((match mm.1 with
          | none => some d
          | some m => if dateLt d m then some d else some m),
         (match mm.2 with
          | none => some d
          | some m => if dateLt m d then some d else some m))
      else mm)
    (minD, maxD)

structure RunResult where
  dates : List PyDate
  visited : Nat
  out : List String
  minD : Option PyDate
  maxD : Option PyDate
deriving Repr

/-- The `while True` pagination loop of `scrape_data` (scrape.py lines
192-312), over the remaining upstream pages, carrying the page number and
the cumulative `appended`/`min_date`/`max_date` state.  `dates` are the
resolved dates of the records this call appends, in order. -/
def runFrom (since : PyDate) : List Page → Nat → Nat → Option PyDate →
    Option PyDate → RunResult
  | [], _, _, minD, maxD => ⟨[], 0, [], minD, maxD⟩
  | p :: rest, pageNo, acc, minD, maxD =>
    let fl := fetchLine pageNo acc
    if p.status ≠ 200 then
      ⟨[], 1, [fl, httpStopLine p.status pageNo], minD, maxD⟩
    else if p.links = [] then
      ⟨[], 1, [fl, noLinksLine pageNo], minD, maxD⟩
    else
      let recs := p.links.filterMap (processEntry since)
      let ds := recs.map Prod.snd
      let mm := trackDates minD maxD ds
      if ds = [] then ⟨[], 1, [fl, noNewLine pageNo], mm.1, mm.2⟩
      else
        let acc' := acc + ds.length
        let r := runFrom since rest (pageNo + 1) acc' mm.1 mm.2
        ⟨ds ++ r.dates, 1 + r.visited,
          fl :: finishedLine pageNo acc' :: r.out, r.minD, r.maxD⟩

def optDateStr : Option PyDate → String
  | some d => isoDate d
  | none => "None"

def updatedLine (m : PyDate) : String :=
  "Updated last_run.txt -> " ++ isoDate m

def initializedLine (today : PyDate) : String :=
  "No new items. Initialized last_run.txt to " ++ isoDate today

/-- `scrape_data` plus the state-file update (scrape.py lines 176-332):
runs the loop from page 1, prints the summary, and writes `last_run.txt`
per lines 323-332.  `state` is the current content of `last_run.txt`
(`none`: the file does not exist), `today` is `date.today()`; the second
component is the file's content after the run. -/
def scrapeData (since : PyDate) (pages : List Page) (state : Option String)
    (today : PyDate) : RunResult × Option String :=
  let r := runFrom since pages 1 0 none none
  let summary :=
    if r.minD.isSome || r.maxD.isSome then
      "Scraped date range this run: " ++ optDateStr r.minD ++ " to " ++
        optDateStr r.maxD
    else
      "Scraped date range this run: (no valid " ++ aposS ++ "Added on" ++
        aposS ++ " dates parsed)"
  match r.maxD with
  | some m =>
    ({ r with out := r.out ++ [summary, updatedLine m] }, some (isoDate m))
  | none =>
    match state with
    | some s => ({ r with out := r.out ++ [summary] }, some s)
    | none =>
      ({ r with out := r.out ++ [summary, initializedLine today] },
        some (isoDate today))

/-- The three loop-exit conditions of scrape.py lines 196-198, 202-204 and
306-309, as a predicate of one fetched page. -/
def stopsPage (since : PyDate) (p : Page) : Bool :=
  p.status != 200 || p.links.isEmpty ||
    (p.links.filterMap (processEntry since)).isEmpty

/-- Does the head page complete (fetch ok, links present, at least one
record appended), so that the loop advances to the next page? -/
def firstPageCompletes (since : PyDate) : List Page → Bool
  | [] => false
  | p :: _ => !stopsPage since p

/-! ### The durable sink (`module_5/src/load_data.py` and
`module_5/src/create_schema.py`)

`INSERT ... ON CONFLICT (url) DO NOTHING` is executed against the
`applicants` table.  PostgreSQL resolves the conflict target `(url)` by
unique-index inference: some unique index must cover exactly the target's
column set, otherwise the statement fails with error 42P10 before any row
is considered.  The schema's unique indexes are the `p_id` primary key and
`CONSTRAINT applicants_uniq UNIQUE (program, url, date_added)`
(create_schema.py lines 9 and 34).  SQL `NULL` never equals `NULL`, so a
row conflicts only on all-non-null equal key columns. -/

/-- One row of the `applicants` insert payload (`build_payload`,
load_data.py lines 97-115); column values are compared through
`colValue`. -/
structure DbRow where
  program : Option String
  comments : Option String
  date_added : Option PyDate
  url : Option String
  status : Option String
  term : Option String
  us_or_international : Option String
  gpa : Option ℚ
  gre : Option ℚ
  gre_v : Option ℚ
  gre_aw : Option ℚ
  degree : Option String
  llm_generated_program : Option String
  llm_generated_university : Option String
deriving DecidableEq, Repr

/-- The value of a (key-relevant) column of a row, serialized; `p_id` is
the serial surrogate key, never equal between two rows being compared, so
it is treated as never conflicting. -/
def colValue (r : DbRow) : String → Option String
  | "program" => r.program
  | "url" => r.url
  | "date_added" => r.date_added.map isoDate
  | _ => none

def sameColumns (a b : List String) : Bool :=
  a.all (fun c => b.contains c) && b.all (fun c => a.contains c)

/-- PostgreSQL unique-index inference for an `ON CONFLICT (cols)` target. -/
def inferArbiter (target : List String) (idxs : List (List String)) :
    Option (List String) :=
  idxs.find? fun idx => sameColumns idx target

inductive SqlError
  | noMatchingUniqueIndex   -- PostgreSQL error 42P10
deriving DecidableEq, Repr

/-- Executing `INSERT ... ON CONFLICT (target) DO NOTHING` against a
store whose unique indexes are `idxs`: error 42P10 when no unique index
matches the target; otherwise insert-or-ignore on the arbiter's columns. -/
def executeInsertOnConflict (idxs : List (List String))
    (target : List String) (store : List DbRow) (row : DbRow) :
    Except SqlError (List DbRow) :=
  match inferArbiter target idxs with
  | none => .error .noMatchingUniqueIndex
  | some idx =>
    if store.any (fun r =>
        idx.all fun c =>
          match colValue r c, colValue row c with
          | some x, some y => x == y
          | _, _ => false) then
      .ok store
    else .ok (store ++ [row])

/-- The unique indexes created by create_schema.py (lines 9 and 34). -/
def applicantsUniqueIndexes : List (List String) :=
  [["p_id"], ["program", "url", "date_added"]]

/-- The conflict target of `INSERT_SQL` (load_data.py line 93). -/
def insertSqlConflictTarget : List String := ["url"]

/-- The proposition `dateLt` decides. -/
def dateLtP (a b : PyDate) : Prop :=
  a.year < b.year ∨ (a.year = b.year ∧ (a.month < b.month ∨
    (a.month = b.month ∧ a.day < b.day)))

/-- Running maximum over a list of dates (the specification's "maximum
`date_added` observed across appended records"). -/
def maxFoldD (m : Option PyDate) (ds : List PyDate) : Option PyDate :=
  ds.foldl
    (fun mm d =>
      match mm with
      | none => some d
      | some x => if dateLt x d then some d else some x) m

/-! ### Concrete inputs used by claim instances -/

/-- A detail page whose only field is `Added on: September 7, 2025`. -/
def sep7Doc : DetailDoc := ⟨[⟨"Added on", some "September 7, 2025"⟩], ""⟩

/-- An entry whose card estimate (2020) is before the cutoffs used below
while its detail page says 2025-09-07. -/
def earlySkipEntry : Entry :=
  ⟨"Added on January 1, 2020", "https://www.thegradcafe.com/result/1",
    some sep7Doc⟩

/-- An entry whose detail page yields no "added on" value but whose card
text contains `Added on September 7, 2025`. -/
def sep7CardEntry : Entry :=
  ⟨"Program listing Added on September 7, 2025",
    "https://www.thegradcafe.com/result/2", some ⟨[], ""⟩⟩

/-- A detail page carrying decision and notification fields. -/
def statusDoc : DetailDoc :=
  ⟨[⟨"Added on", some "September 7, 2025"⟩,
    ⟨"Decision", some "Accepted"⟩,
    ⟨"Notification", some "on 01/20/2025 via E-mail"⟩], ""⟩

def statusEntry : Entry :=
  ⟨"", "https://www.thegradcafe.com/result/3", some statusDoc⟩

/-! ## Lemmas -/

theorem tryFormats_findSome (fs : List DateFmt) (s : String) :
    tryFormatsScrape fs s =
      (fs.findSome? fun f => strptimeDate f s).bind
        (fun d => if inRangeDate d then some d else none) := by
  induction fs with
  | nil => rfl
  | cons f fs ih =>
    simp only [tryFormatsScrape, List.findSome?_cons]
    cases strptimeDate f s <;> simp [ih]

theorem isPySpace_lowerChar (c : Char) :
    isPySpace (lowerChar c) = isPySpace c := by
  unfold lowerChar
  split
  · rename_i h
    have ht : (Char.ofNat (c.toNat + 32)).toNat = c.toNat + 32 := by
      have hv : (c.toNat + 32).isValidChar := Or.inl (by omega)
      simp [Char.ofNat, hv]
      rfl
    have h1 : isPySpace (Char.ofNat (c.toNat + 32)) = false := by
      simp [isPySpace, ht]
      omega
    have h2 : isPySpace c = false := by
      simp [isPySpace]
      omega
    rw [h1, h2]
  · rfl

theorem lowerChar_space : lowerChar ' ' = ' ' := by decide

theorem pyWordsAux_dropWhile (cs : List Char) :
    pyWordsAux (cs.dropWhile isPySpace) [] = pyWordsAux cs [] := by
  induction cs with
  | nil => rfl
  | cons c rest ih =>
    by_cases h : isPySpace c
    · simpa [List.dropWhile_cons, h, pyWordsAux] using ih
    · simp [List.dropWhile_cons, h]

theorem pyWordsAux_all_space (sp : List Char)
    (h : ∀ c ∈ sp, isPySpace c = true) (acc : List Char) :
    pyWordsAux sp acc = if acc = [] then [] else [acc.reverse] := by
  induction sp generalizing acc with
  | nil => rfl
  | cons c rest ih =>
    have hc := h c (by simp)
    have hr : ∀ x ∈ rest, isPySpace x = true := fun x hx => h x (by simp [hx])
    by_cases ha : acc = []
    · simp [pyWordsAux, hc, ha, ih hr]
    · simp [pyWordsAux, hc, ha, ih hr]

theorem pyWordsAux_append_space (cs sp : List Char)
    (h : ∀ c ∈ sp, isPySpace c = true) (acc : List Char) :
    pyWordsAux (cs ++ sp) acc = pyWordsAux cs acc := by
  induction cs generalizing acc with
  | nil =>
    rw [List.nil_append, pyWordsAux_all_space sp h acc]
    rfl
  | cons c rest ih =>
    by_cases hc : isPySpace c <;> by_cases ha : acc = [] <;>
      simp [pyWordsAux, hc, ha, ih]

theorem pyWords_stripChars (cs : List Char) :
    pyWords (pyStripChars cs) = pyWords cs := by
  unfold pyWords pyStripChars
  have hsp : ∀ c ∈ ((cs.dropWhile isPySpace).reverse.takeWhile
      isPySpace).reverse, isPySpace c = true := by
    intro c hc
    rw [List.mem_reverse] at hc
    exact List.mem_takeWhile_imp hc
  calc pyWordsAux ((cs.dropWhile isPySpace).reverse.dropWhile
          isPySpace).reverse []
      = pyWordsAux (((cs.dropWhile isPySpace).reverse.dropWhile
          isPySpace).reverse ++ ((cs.dropWhile isPySpace).reverse.takeWhile
          isPySpace).reverse) [] := by
        rw [pyWordsAux_append_space _ _ hsp]
    _ = pyWordsAux (cs.dropWhile isPySpace) [] := by
        rw [← List.reverse_append, List.takeWhile_append_dropWhile,
          List.reverse_reverse]
    _ = pyWordsAux cs [] := pyWordsAux_dropWhile cs

theorem pyWordsAux_map_lower (cs : List Char) (acc : List Char) :
    pyWordsAux (cs.map lowerChar) (acc.map lowerChar) =
      (pyWordsAux cs acc).map (List.map lowerChar) := by
  induction cs generalizing acc with
  | nil =>
    by_cases h : acc = []
    · simp [pyWordsAux, h]
    · have h' : acc.map lowerChar ≠ [] := by
        simpa [List.map_eq_nil_iff] using h
      simp [pyWordsAux, h, h', List.map_reverse]
  | cons c rest ih =>
    by_cases hc : isPySpace c
    · have hc' : isPySpace (lowerChar c) = true := by
        rw [isPySpace_lowerChar]; exact hc
      by_cases ha : acc = []
      · have := ih []
        simpa [pyWordsAux, hc, hc', ha] using this
      · have ha' : acc.map lowerChar ≠ [] := by
          simpa [List.map_eq_nil_iff] using ha
        have := ih []
        simp [pyWordsAux, hc, hc', ha, ha', List.map_reverse]
        simpa using this
    · have hc' : isPySpace (lowerChar c) = false := by
        rw [isPySpace_lowerChar]
        simpa using hc
      have := ih (c :: acc)
      simpa [pyWordsAux, hc, hc'] using this

theorem pyWords_map_lower (cs : List Char) :
    pyWords (cs.map lowerChar) = (pyWords cs).map (List.map lowerChar) :=
  pyWordsAux_map_lower cs []

/-- Every word produced by the splitter is non-empty and space-free. -/
theorem pyWordsAux_good (cs : List Char) (acc : List Char)
    (hacc : ∀ c ∈ acc, isPySpace c = false) :
    ∀ w ∈ pyWordsAux cs acc, w ≠ [] ∧ ∀ c ∈ w, isPySpace c = false := by
  induction cs generalizing acc with
  | nil =>
    intro w hw
    by_cases h : acc = []
    · simp [pyWordsAux, h] at hw
    · simp [pyWordsAux, h] at hw
      subst hw
      refine ⟨by simpa using h, ?_⟩
      intro c hc
      exact hacc c (by simpa using hc)
  | cons c rest ih =>
    intro w hw
    by_cases hc : isPySpace c
    · by_cases ha : acc = []
      · rw [ha] at hw
        simp [pyWordsAux, hc] at hw
        exact ih [] (by simp) w hw
      · simp [pyWordsAux, hc, ha] at hw
        rcases hw with hw | hw
        · subst hw
          refine ⟨by simpa using ha, ?_⟩
          intro x hx
          exact hacc x (by simpa using hx)
        · exact ih [] (by simp) w hw
    · simp only [pyWordsAux, hc, if_false] at hw
      exact ih (c :: acc)
        (by
          intro x hx
          rcases List.mem_cons.mp hx with rfl | hx
          · simpa using hc
          · exact hacc x hx) w hw

theorem pyWords_good (cs : List Char) :
    ∀ w ∈ pyWords cs, w ≠ [] ∧ ∀ c ∈ w, isPySpace c = false :=
  pyWordsAux_good cs [] (by simp)

/-- Pushing an all-non-space word into the splitter's accumulator. -/
theorem pyWordsAux_append_word (w cs acc : List Char)
    (hw : ∀ c ∈ w, isPySpace c = false) :
    pyWordsAux (w ++ cs) acc = pyWordsAux cs (w.reverse ++ acc) := by
  induction w generalizing acc with
  | nil => simp
  | cons c w' ih =>
    have hc : isPySpace c = false := hw c (by simp)
    have hw' : ∀ x ∈ w', isPySpace x = false := fun x hx => hw x (by simp [hx])
    simp only [List.cons_append, pyWordsAux, hc, Bool.false_eq_true, if_false]
    simpa using ih (c :: acc) hw'

/-- Splitting a joined good word list recovers the words. -/
theorem pyWords_joinWordsSp (ws : List (List Char))
    (h : ∀ w ∈ ws, w ≠ [] ∧ ∀ c ∈ w, isPySpace c = false) :
    pyWords (joinWordsSp ws) = ws := by
  induction ws with
  | nil => rfl
  | cons w ws ih =>
    have hw := h w (by simp)
    have hws : ∀ x ∈ ws, x ≠ [] ∧ ∀ c ∈ x, isPySpace c = false :=
      fun x hx => h x (by simp [hx])
    cases ws with
    | nil =>
      show pyWords w = [w]
      unfold pyWords
      rw [show w = w ++ ([] : List Char) by simp,
        pyWordsAux_append_word w [] [] hw.2]
      simp [pyWordsAux, List.append_nil, hw.1]
    | cons w2 ws2 =>
      have hJ := ih hws
      show pyWords (w ++ ' ' :: joinWordsSp (w2 :: ws2)) = _
      unfold pyWords at hJ ⊢
      rw [pyWordsAux_append_word w _ [] hw.2, List.append_nil]
      simp only [pyWordsAux, show isPySpace ' ' = true by decide, if_true]
      rw [if_neg (by simpa using hw.1), List.reverse_reverse, hJ]

theorem joinWordsSp_head (c : Char) (w' : List Char)
    (ws : List (List Char)) :
    ∃ t, joinWordsSp ((c :: w') :: ws) = c :: t := by
  cases ws with
  | nil => exact ⟨w', rfl⟩
  | cons w2 ws2 => exact ⟨w' ++ ' ' :: joinWordsSp (w2 :: ws2), rfl⟩

theorem joinWordsSp_last (ws : List (List Char))
    (h : ∀ w ∈ ws, w ≠ [] ∧ ∀ c ∈ w, isPySpace c = false) (hne : ws ≠ []) :
    ∃ c t, (joinWordsSp ws).reverse = c :: t ∧ isPySpace c = false := by
  induction ws with
  | nil => exact absurd rfl hne
  | cons w ws ih =>
    have hw := h w (by simp)
    have hws : ∀ x ∈ ws, x ≠ [] ∧ ∀ c ∈ x, isPySpace c = false :=
      fun x hx => h x (by simp [hx])
    cases ws with
    | nil =>
      show ∃ c t, w.reverse = c :: t ∧ isPySpace c = false
      cases hr : w.reverse with
      | nil => exact absurd (by simpa using hr) hw.1
      | cons c t =>
        refine ⟨c, t, rfl, hw.2 c ?_⟩
        have : c ∈ w.reverse := by rw [hr]; simp
        simpa using this
    | cons w2 ws2 =>
      obtain ⟨c, t, hct, hcs⟩ := ih hws (by simp)
      refine ⟨c, t ++ ' ' :: w.reverse, ?_, hcs⟩
      show (w ++ ' ' :: joinWordsSp (w2 :: ws2)).reverse = _
      rw [List.reverse_append, List.reverse_cons, hct]
      simp

theorem pyStrip_pyCollapse (s : String) :
    pyStrip (pyCollapse s) = pyCollapse s := by
  unfold pyStrip pyCollapse pyStripChars
  congr 1
  have hgood := pyWords_good s.data
  cases hws : pyWords s.data with
  | nil => rfl
  | cons w ws =>
    have hw := hgood w (by rw [hws]; simp)
    have h1 : (joinWordsSp (w :: ws)).dropWhile isPySpace =
        joinWordsSp (w :: ws) := by
      cases w with
      | nil => exact absurd rfl hw.1
      | cons c w' =>
        obtain ⟨t, ht⟩ := joinWordsSp_head c w' ws
        rw [ht, List.dropWhile_cons,
          if_neg (by simp [hw.2 c (by simp)])]
    rw [h1]
    obtain ⟨c, t, hct, hcs⟩ := joinWordsSp_last (w :: ws)
      (fun x hx => hgood x (by rw [hws]; exact hx)) (by simp)
    rw [hct, List.dropWhile_cons, if_neg (by simp [hcs]), ← hct,
      List.reverse_reverse]

theorem map_lower_joinWordsSp (ws : List (List Char)) :
    (joinWordsSp ws).map lowerChar =
      joinWordsSp (ws.map (List.map lowerChar)) := by
  induction ws with
  | nil => rfl
  | cons w ws ih =>
    cases ws with
    | nil => rfl
    | cons w2 ws2 =>
      show (w ++ ' ' :: joinWordsSp (w2 :: ws2)).map lowerChar = _
      rw [List.map_append, List.map_cons, ih]
      have : lowerChar ' ' = ' ' := by decide
      rw [this]
      rfl

theorem pyLower_pyCollapse (s : String) :
    pyLower (pyCollapse s) = pyCollapse (pyLower s) := by
  unfold pyLower pyCollapse
  congr 1
  show (joinWordsSp (pyWords s.data)).map lowerChar = _
  rw [map_lower_joinWordsSp]
  congr 1
  exact (pyWords_map_lower s.data).symm

theorem pyCollapse_pyCollapse (s : String) :
    pyCollapse (pyCollapse s) = pyCollapse s := by
  unfold pyCollapse
  congr 1
  rw [show (⟨joinWordsSp (pyWords s.data)⟩ : String).data =
    joinWordsSp (pyWords s.data) from rfl]
  rw [pyWords_joinWordsSp (pyWords s.data) (pyWords_good s.data)]

theorem pyCollapse_pyStrip (s : String) :
    pyCollapse (pyStrip s) = pyCollapse s := by
  unfold pyCollapse pyStrip
  congr 1
  rw [show (⟨pyStripChars s.data⟩ : String).data = pyStripChars s.data
    from rfl]
  have := pyWords_stripChars s.data
  unfold pyWords at this ⊢
  rw [this]

/-- The code's label normalization (collapse, strip, lower, one colon)
agrees with the specification's order (trim, lower, collapse, one colon)
on every detail-page label. -/
theorem norm_label_eq_spec (dt : String) :
    norm_label ((textOf dt).getD "") =
      stripOneColon (pyCollapse (pyLower (pyStrip dt))) := by
  have hb : pyCollapse (pyLower (pyStrip dt)) =
      pyLower (pyCollapse dt) := by
    rw [← pyLower_pyCollapse, pyCollapse_pyStrip]
  by_cases h : pyCollapse dt = ""
  · have htext : textOf dt = none := by simp [textOf, h]
    rw [htext]
    show norm_label "" = _
    rw [hb, h]
    rfl
  · have htext : textOf dt = some (pyCollapse dt) := by simp [textOf, h]
    rw [htext]
    show norm_label (pyCollapse dt) = _
    unfold norm_label
    rw [pyCollapse_pyCollapse, pyStrip_pyCollapse, hb]

/-! ### Dictionary lemmas -/

theorem find_map_replace_ne (D : List (String × String)) (k v k' : String)
    (hk : k' ≠ k) :
    (D.map fun p => if p.1 == k then (k, v) else p).find?
        (fun p => p.1 == k') =
      D.find? (fun p => p.1 == k') := by
  induction D with
  | nil => rfl
  | cons q D ih =>
    by_cases hq : q.1 = k
    · have h1 : (q.1 == k) = true := by simp [hq]
      have h2 : ((k, v).1 == k') = false := by
        simp only [beq_eq_false_iff_ne, ne_eq]
        exact Ne.symm hk
      have h3 : (q.1 == k') = false := by
        rw [hq]
        simp only [beq_eq_false_iff_ne, ne_eq]
        exact Ne.symm hk
      simp only [List.map_cons, h1, if_true, List.find?_cons, h2, h3]
      exact ih
    · have h1 : (q.1 == k) = false := by simp [hq]
      simp only [List.map_cons, h1, Bool.false_eq_true, if_false,
        List.find?_cons]
      cases hq' : (q.1 == k') with
      | true => rfl
      | false => exact ih

theorem find_map_replace_eq (D : List (String × String)) (k v : String)
    (hmem : D.any (fun p => p.1 == k) = true) :
    (D.map fun p => if p.1 == k then (k, v) else p).find?
        (fun p => p.1 == k) = some (k, v) := by
  induction D with
  | nil => simp at hmem
  | cons q D ih =>
    by_cases hq : q.1 = k
    · have h1 : (q.1 == k) = true := by simp [hq]
      simp only [List.map_cons, h1, if_true, List.find?_cons,
        show ((k, v).1 == k) = true by simp]
    · have h1 : (q.1 == k) = false := by simp [hq]
      simp only [List.any_cons, h1, Bool.false_or] at hmem
      simp only [List.map_cons, h1, Bool.false_eq_true, if_false,
        List.find?_cons, h1]
      exact ih hmem

theorem find_none_of_not_any (D : List (String × String)) (k : String)
    (hmem : D.any (fun p => p.1 == k) = false) :
    D.find? (fun p => p.1 == k) = none := by
  induction D with
  | nil => rfl
  | cons q D ih =>
    simp only [List.any_cons, Bool.or_eq_false_iff] at hmem
    simp only [List.find?_cons, hmem.1]
    exact ih hmem.2

theorem dictGet_insert (D : List (String × String)) (k v k' : String) :
    dictGet (dictInsert D k v) k' =
      if k' = k then some v else dictGet D k' := by
  unfold dictInsert dictGet
  by_cases hmem : D.any (fun p => p.1 == k) = true
  · rw [if_pos hmem]
    by_cases hk : k' = k
    · subst hk
      rw [find_map_replace_eq D k' v hmem, if_pos rfl]
      rfl
    · rw [find_map_replace_ne D k v k' hk, if_neg hk]
  · rw [if_neg hmem]
    rw [List.find?_append]
    by_cases hk : k' = k
    · subst hk
      have hf : D.any (fun p => p.1 == k') = false :=
        Bool.eq_false_iff.mpr hmem
      rw [find_none_of_not_any D k' hf]
      simp
    · have hone : (List.find? (fun p => p.1 == k') [(k, v)]) = none := by
        simp only [List.find?_cons, List.find?_nil]
        rw [show ((k, v).1 == k') = false by
          simp only [beq_eq_false_iff_ne, ne_eq]
          exact Ne.symm hk]
      rw [hone, if_neg hk]
      cases List.find? (fun p => p.1 == k') D <;> rfl

/-- The loop body agrees with the specification's per-pair
normalization. -/
theorem fieldStep_eq_spec (D : List (String × String)) (p : DtPair) :
    fieldStep D p =
      match specNormPair p with
      | some lv => dictInsert D lv.1 lv.2
      | none => D := by
  unfold fieldStep specNormPair
  cases p.dd with
  | none => rfl
  | some ddS =>
    rw [norm_label_eq_spec p.dt]
    by_cases hv : pyCollapse ddS = ""
    · have ht : textOf ddS = none := by simp [textOf, hv]
      simp [ht, hv]
    · have ht : textOf ddS = some (pyCollapse ddS) := by simp [textOf, hv]
      by_cases hl : stripOneColon (pyCollapse (pyLower (pyStrip p.dt))) = ""
      · simp [ht, hv, hl]
      · simp [ht, hv, hl]

theorem extract_fields_lookupAux (ps : List DtPair)
    (D : List (String × String)) (k : String) :
    dictGet (ps.foldl fieldStep D) k =
      match (ps.filterMap specNormPair).reverse.find?
          (fun q => q.1 == k) with
      | some q => some q.2
      | none => dictGet D k := by
  induction ps generalizing D with
  | nil => rfl
  | cons p ps ih =>
    rw [List.foldl_cons, ih (fieldStep D p), List.filterMap_cons]
    cases hs : specNormPair p with
    | none =>
      rw [fieldStep_eq_spec D p, hs]
    | some lv =>
      rw [fieldStep_eq_spec D p, hs, List.reverse_cons, List.find?_append]
      cases hfind : (ps.filterMap specNormPair).reverse.find?
          (fun q => q.1 == k) with
      | some q => rfl
      | none =>
        cases hlv : (lv.1 == k) with
        | true =>
          have hk : k = lv.1 := ((beq_iff_eq).mp hlv).symm
          simp only [List.find?_cons, hlv]
          rw [dictGet_insert, if_pos hk]
          rfl
        | false =>
          have hk : ¬(k = lv.1) := by
            intro h
            rw [h] at hlv
            simp at hlv
          simp only [List.find?_cons, hlv]
          rw [dictGet_insert, if_neg hk]
          rfl

theorem extract_fields_lookup (pairs : List DtPair) (k : String) :
    dictGet (extract_fields pairs) k =
      match (pairs.filterMap specNormPair).reverse.find?
          (fun q => q.1 == k) with
      | some q => some q.2
      | none => none := by
  rw [extract_fields, extract_fields_lookupAux pairs [] k]
  rfl

theorem specNormPair_value_ne (p : DtPair) (q : String × String)
    (h : specNormPair p = some q) : q.2 ≠ "" := by
  unfold specNormPair at h
  split at h
  · exact absurd h (by simp)
  · simp only at h
    split at h
    · rename_i hcond
      injection h with h'
      rw [← h']
      exact hcond.2
    · exact absurd h (by simp)

/-- Every value stored by the field extractor is non-empty. -/
theorem extract_fields_value_ne_empty (pairs : List DtPair) (k v : String)
    (h : dictGet (extract_fields pairs) k = some v) : v ≠ "" := by
  rw [extract_fields_lookup] at h
  cases hfind : (pairs.filterMap specNormPair).reverse.find?
      (fun q => q.1 == k) with
  | none => rw [hfind] at h; exact absurd h (by simp)
  | some q =>
    rw [hfind] at h
    have hq : q ∈ (pairs.filterMap specNormPair).reverse :=
      List.mem_of_find?_eq_some hfind
    rw [List.mem_reverse] at hq
    obtain ⟨p, _, hp⟩ := List.mem_filterMap.mp hq
    have hv : v = q.2 := by
      injection h with h'
      exact h'.symm
    subst hv
    exact specNormPair_value_ne p q hp

/-! ### Equations for `processEntry` -/

theorem processEntry_skip {since : PyDate} {e : Entry}
    (h : cardSkip since e = true) : processEntry since e = none := by
  unfold processEntry
  rw [h]
  rfl

theorem processEntry_fetchFail {since : PyDate} {e : Entry}
    (h1 : cardSkip since e = false) (h2 : e.detail = none) :
    processEntry since e = none := by
  unfold processEntry
  rw [h1, h2]
  rfl

theorem processEntry_withDoc {since : PyDate} {e : Entry} {doc : DetailDoc}
    (h1 : cardSkip since e = false) (h2 : e.detail = some doc) :
    processEntry since e = processDoc since e doc := by
  unfold processEntry
  rw [h1, h2]
  rfl

theorem processDoc_noDate {since : PyDate} {e : Entry} {doc : DetailDoc}
    (h : resolvedDateOf e.cardText doc = none) :
    processDoc since e doc = none := by
  unfold processDoc
  rw [h]

theorem processDoc_date {since : PyDate} {e : Entry} {doc : DetailDoc}
    {d : PyDate} (h : resolvedDateOf e.cardText doc = some d) :
    processDoc since e doc =
      if dateLt d since then none
      else some (buildRecord doc e.detailUrl d, d) := by
  unfold processDoc
  rw [h]

/-- Projections of the assembled record. -/
theorem buildRecord_date_added (doc : DetailDoc) (u : String) (d : PyDate) :
    (buildRecord doc u d).date_added = isoDate d := rfl

theorem buildRecord_status (doc : DetailDoc) (u : String) (d : PyDate) :
    (buildRecord doc u d).status = statusSpec (extract_fields doc.dtdd) := by
  show (if pyTruthyOptS (dictGet (extract_fields doc.dtdd) "decision") &&
        pyTruthyOptS (dictGet (extract_fields doc.dtdd) "notification") then
      some ((dictGet (extract_fields doc.dtdd) "decision").getD "" ++ " " ++
        (dictGet (extract_fields doc.dtdd) "notification").getD "")
    else if pyTruthyOptS (dictGet (extract_fields doc.dtdd) "decision") then
      dictGet (extract_fields doc.dtdd) "decision"
    else none) = statusSpec (extract_fields doc.dtdd)
  unfold statusSpec
  cases hd : dictGet (extract_fields doc.dtdd) "decision" with
  | none => simp [pyTruthyOptS]
  | some dcs =>
    have hne := extract_fields_value_ne_empty doc.dtdd "decision" dcs hd
    have htr : pyTruthyOptS (some dcs) = true := by
      simp [pyTruthyOptS, hne]
    cases hn : dictGet (extract_fields doc.dtdd) "notification" with
    | none => simp [pyTruthyOptS, htr, hne]
    | some ntf =>
      have hnen := extract_fields_value_ne_empty doc.dtdd "notification"
        ntf hn
      have htrn : pyTruthyOptS (some ntf) = true := by
        simp [pyTruthyOptS, hnen]
      simp [htr, htrn]

/-! ### Walker lemmas -/

theorem runFrom_visited (since : PyDate) (pages : List Page) :
    ∀ (pageNo acc : Nat) (minD maxD : Option PyDate),
      (runFrom since pages pageNo acc minD maxD).visited =
        min pages.length
          ((pages.takeWhile fun p => !stopsPage since p).length + 1) := by
  induction pages with
  | nil => intro pageNo acc minD maxD; rfl
  | cons p rest ih =>
    intro pageNo acc minD maxD
    by_cases h1 : p.status = 200
    · by_cases h2 : p.links = []
      · have hstop : stopsPage since p = true := by
          simp [stopsPage, h2]
        simp only [runFrom, if_neg (not_not_intro h1), if_pos h2]
        show 1 = _
        simp only [List.takeWhile_cons, hstop, Bool.not_true,
          Bool.false_eq_true, if_false, List.length_nil, List.length_cons]
        omega
      · by_cases h3 : (p.links.filterMap (processEntry since)) = []
        · have hstop : stopsPage since p = true := by
            simp [stopsPage, h3]
          have hds : (p.links.filterMap (processEntry since)).map
              Prod.snd = [] := by
            rw [h3]
            rfl
          simp only [runFrom, if_neg (not_not_intro h1), if_neg h2]
          rw [hds, if_pos rfl]
          show 1 = _
          simp only [List.takeWhile_cons, hstop, Bool.not_true,
            Bool.false_eq_true, if_false, List.length_nil, List.length_cons]
          omega
        · have hstop : stopsPage since p = false := by
            simp [stopsPage, h1, h2, h3]
          have hds : (p.links.filterMap (processEntry since)).map
              Prod.snd ≠ [] := by
            simpa [List.map_eq_nil_iff] using h3
          simp only [runFrom, if_neg (not_not_intro h1), if_neg h2,
            if_neg hds]
          show 1 + (runFrom since rest (pageNo + 1) _ _ _).visited = _
          simp only [List.takeWhile_cons, hstop, Bool.not_false, if_true,
            List.length_cons]
          rw [ih (pageNo + 1) _ _ _]
          omega
    · have hstop : stopsPage since p = true := by
        simp [stopsPage, h1]
      simp only [runFrom, if_pos h1]
      show 1 = _
      simp only [List.takeWhile_cons, hstop, Bool.not_true,
        Bool.false_eq_true, if_false, List.length_nil, List.length_cons]
      omega

theorem strData_append (a b : String) : (a ++ b).data = a.data ++ b.data :=
  rfl

/-- A run whose first page hits a stop condition appends nothing. -/
theorem runFrom_dates_nil (since : PyDate) (pages : List Page)
    (h : firstPageCompletes since pages = false) :
    ∀ (pageNo acc : Nat) (minD maxD : Option PyDate),
      (runFrom since pages pageNo acc minD maxD).dates = [] := by
  intro pageNo acc minD maxD
  cases pages with
  | nil => rfl
  | cons p rest =>
    have hstop : stopsPage since p = true := by
      simpa [firstPageCompletes] using h
    by_cases h1 : p.status = 200
    · by_cases h2 : p.links = []
      · simp only [runFrom, if_neg (not_not_intro h1), if_pos h2]
      · have h3 : (p.links.filterMap (processEntry since)) = [] := by
          have hsplit := hstop
          unfold stopsPage at hsplit
          simp only [Bool.or_eq_true, bne_iff_ne, ne_eq,
            List.isEmpty_iff] at hsplit
          tauto
        have hds : (p.links.filterMap (processEntry since)).map
            Prod.snd = [] := by
          rw [h3]
          rfl
        simp only [runFrom, if_neg (not_not_intro h1), if_neg h2]
        rw [hds, if_pos rfl]
    · simp only [runFrom, if_pos h1]

/-- A run whose first page completes prints a line containing
`appended <N> records` with `N` the run's final appended total. -/
theorem runFrom_reports (since : PyDate) (pages : List Page) :
    ∀ (pageNo acc : Nat) (minD maxD : Option PyDate),
      firstPageCompletes since pages = true →
      ∃ l ∈ (runFrom since pages pageNo acc minD maxD).out,
        List.IsInfix
          (appendedKey
            (acc + (runFrom since pages pageNo acc minD maxD).dates.length)).data
          l.data := by
  induction pages with
  | nil =>
    intro pageNo acc minD maxD h
    simp [firstPageCompletes] at h
  | cons p rest ih =>
    intro pageNo acc minD maxD h
    have hstopf : stopsPage since p = false := by
      simpa [firstPageCompletes] using h
    have h1 : p.status = 200 := by
      by_contra h1
      rw [show stopsPage since p = true by simp [stopsPage, h1]] at hstopf
      exact absurd hstopf (by simp)
    have h2 : p.links ≠ [] := by
      intro h2
      rw [show stopsPage since p = true by simp [stopsPage, h2]] at hstopf
      exact absurd hstopf (by simp)
    have h3 : (p.links.filterMap (processEntry since)) ≠ [] := by
      intro h3
      rw [show stopsPage since p = true by simp [stopsPage, h3]] at hstopf
      exact absurd hstopf (by simp)
    have hds : (p.links.filterMap (processEntry since)).map
        Prod.snd ≠ [] := by
      simpa [List.map_eq_nil_iff] using h3
    simp only [runFrom, if_neg (not_not_intro h1), if_neg h2, if_neg hds]
    set ds := (p.links.filterMap (processEntry since)).map Prod.snd with hdsdef
    set mm := trackDates minD maxD ds with hmm
    set r := runFrom since rest (pageNo + 1) (acc + ds.length) mm.1 mm.2
      with hr
    show ∃ l ∈ fetchLine pageNo acc ::
        finishedLine pageNo (acc + ds.length) :: r.out,
      List.IsInfix (appendedKey (acc + (ds ++ r.dates).length)).data l.data
    cases hrest : firstPageCompletes since rest with
    | true =>
      obtain ⟨l, hl, hinf⟩ := ih (pageNo + 1) (acc + ds.length) mm.1 mm.2
        hrest
      refine ⟨l, by simp [hl], ?_⟩
      rw [← hr] at hinf
      have harith : acc + ds.length + r.dates.length =
          acc + (ds ++ r.dates).length := by
        rw [List.length_append]
        omega
      rw [harith] at hinf
      exact hinf
    | false =>
      have hnil : r.dates = [] := by
        rw [hr]
        exact runFrom_dates_nil since rest (by simpa using hrest)
          (pageNo + 1) (acc + ds.length) mm.1 mm.2
      refine ⟨finishedLine pageNo (acc + ds.length), by simp, ?_⟩
      have harith : acc + (ds ++ r.dates).length = acc + ds.length := by
        rw [hnil]
        simp
      rw [harith]
      refine ⟨("\nFinished page " ++ toString pageNo ++ ", ").data,
        " so far.".data, ?_⟩
      simp [finishedLine, strData_append, List.append_assoc]

/-- `scrape_data`'s epilogue only appends summary lines to stdout and
leaves the appended dates unchanged. -/
theorem scrapeData_out_dates (since : PyDate) (pages : List Page)
    (state : Option String) (today : PyDate) :
    ∃ extra,
      (scrapeData since pages state today).1.out =
        (runFrom since pages 1 0 none none).out ++ extra ∧
      (scrapeData since pages state today).1.dates =
        (runFrom since pages 1 0 none none).dates := by
  simp only [scrapeData]
  cases hm : (runFrom since pages 1 0 none none).maxD with
  | some m => exact ⟨_, rfl, rfl⟩
  | none =>
    cases state with
    | some s => exact ⟨_, rfl, rfl⟩
    | none => exact ⟨_, rfl, rfl⟩

/-! ### Date order and watermark lemmas -/

theorem dateLt_iff (a b : PyDate) : dateLt a b = true ↔ dateLtP a b := by
  unfold dateLt dateLtP
  simp only [Bool.or_eq_true, Bool.and_eq_true, Nat.blt_eq, beq_iff_eq]

theorem dateLe_iff (a b : PyDate) :
    dateLe a b = true ↔ (dateLtP a b ∨ a = b) := by
  unfold dateLe
  simp only [Bool.or_eq_true, beq_iff_eq, dateLt_iff]

theorem dateLe_refl (d : PyDate) : dateLe d d = true :=
  (dateLe_iff d d).mpr (Or.inr rfl)

theorem dateLt_le {a b : PyDate} (h : dateLt a b = true) :
    dateLe a b = true :=
  (dateLe_iff a b).mpr (Or.inl ((dateLt_iff a b).mp h))

theorem dateLt_false_le {a b : PyDate} (h : dateLt a b = false) :
    dateLe b a = true := by
  have hn : ¬ dateLtP a b := by
    rw [← dateLt_iff]
    simp [h]
  rw [dateLe_iff]
  obtain ⟨ay, am, ad⟩ := a
  obtain ⟨by', bm, bd⟩ := b
  simp only [dateLtP, PyDate.mk.injEq] at hn ⊢
  omega

theorem dateLe_trans {a b c : PyDate} (h1 : dateLe a b = true)
    (h2 : dateLe b c = true) : dateLe a c = true := by
  rw [dateLe_iff] at h1 h2 ⊢
  obtain ⟨ay, am, ad⟩ := a
  obtain ⟨by', bm, bd⟩ := b
  obtain ⟨cy, cm, cd⟩ := c
  simp only [dateLtP, PyDate.mk.injEq] at h1 h2 ⊢
  omega

theorem maxFoldD_some (ds : List PyDate) :
    ∀ m : PyDate, ∃ m', maxFoldD (some m) ds = some m' ∧
      (m' = m ∨ m' ∈ ds) ∧ dateLe m m' = true ∧
      ∀ d ∈ ds, dateLe d m' = true := by
  induction ds with
  | nil =>
    intro m
    exact ⟨m, rfl, Or.inl rfl, dateLe_refl m, by simp⟩
  | cons d ds ih =>
    intro m
    cases hlt : dateLt m d with
    | true =>
      obtain ⟨m', hfold, hmem, hle, hall⟩ := ih d
      refine ⟨m', ?_, ?_, ?_, ?_⟩
      · show maxFoldD (if dateLt m d then some d else some m) ds = some m'
        rw [if_pos hlt]
        exact hfold
      · rcases hmem with rfl | hm
        · exact Or.inr (by simp)
        · exact Or.inr (by simp [hm])
      · exact dateLe_trans (dateLt_le hlt) hle
      · intro x hx
        rcases List.mem_cons.mp hx with rfl | hx
        · exact hle
        · exact hall x hx
    | false =>
      obtain ⟨m', hfold, hmem, hle, hall⟩ := ih m
      refine ⟨m', ?_, ?_, hle, ?_⟩
      · show maxFoldD (if dateLt m d then some d else some m) ds = some m'
        rw [if_neg (by simp [hlt])]
        exact hfold
      · rcases hmem with rfl | hm
        · exact Or.inl rfl
        · exact Or.inr (by simp [hm])
      · intro x hx
        rcases List.mem_cons.mp hx with rfl | hx
        · exact dateLe_trans (dateLt_false_le hlt) hle
        · exact hall x hx

/-- `parse_added_on` only returns in-range dates. -/
theorem parse_added_on_inRange {x : Option String} {d : PyDate}
    (h : parse_added_on x = some d) : inRangeDate d = true := by
  cases x with
  | none => exact absurd h (by simp [parse_added_on])
  | some str =>
    rw [show parse_added_on (some str) =
      if str = "" then none
      else tryFormatsScrape scrapeDateFormats (pyStrip str) from rfl] at h
    by_cases he : str = ""
    · rw [if_pos he] at h
      exact absurd h (by simp)
    · rw [if_neg he] at h
      revert h
      generalize pyStrip str = t
      show tryFormatsScrape scrapeDateFormats t = some d →
        inRangeDate d = true
      induction scrapeDateFormats with
      | nil => intro h; exact absurd h (by simp [tryFormatsScrape])
      | cons f fs ih =>
        intro h
        unfold tryFormatsScrape at h
        split at h
        · split at h
          · rename_i hr
            injection h with h'
            rw [← h']
            exact hr
          · exact absurd h (by simp)
        · exact ih h

theorem resolvedDateOf_inRange {ct : String} {doc : DetailDoc}
    {d : PyDate} (h : resolvedDateOf ct doc = some d) :
    inRangeDate d = true := by
  unfold resolvedDateOf at h
  cases hp : parse_added_on (find_added_on_detail doc) with
  | some d' =>
    rw [hp] at h
    injection h with h'
    rw [← h']
    exact parse_added_on_inRange hp
  | none =>
    rw [hp] at h
    unfold cardAddedOf at h
    cases hc : searchCardAdded ct with
    | none => rw [hc] at h; exact absurd h (by simp)
    | some cap =>
      rw [hc] at h
      exact parse_added_on_inRange h

theorem processEntry_inRange {since : PyDate} {e : Entry}
    {pr : ScrapeRecord × PyDate} (h : processEntry since e = some pr) :
    inRangeDate pr.2 = true := by
  by_cases hskip : cardSkip since e = true
  · rw [processEntry_skip hskip] at h
    exact absurd h (by simp)
  · cases hdet : e.detail with
    | none =>
      rw [processEntry_fetchFail (Bool.eq_false_iff.mpr hskip) hdet] at h
      exact absurd h (by simp)
    | some doc =>
      rw [processEntry_withDoc (Bool.eq_false_iff.mpr hskip) hdet] at h
      cases hres : resolvedDateOf e.cardText doc with
      | none =>
        rw [processDoc_noDate hres] at h
        exact absurd h (by simp)
      | some d =>
        rw [processDoc_date hres] at h
        by_cases hdlt : dateLt d since = true
        · rw [if_pos hdlt] at h
          exact absurd h (by simp)
        · rw [if_neg hdlt] at h
          injection h with h'
          rw [← h']
          exact resolvedDateOf_inRange hres

theorem pageDates_inRange (since : PyDate) (links : List Entry) :
    ∀ d ∈ (links.filterMap (processEntry since)).map Prod.snd,
      inRangeDate d = true := by
  intro d hd
  obtain ⟨pr, hpr, hprd⟩ := List.mem_map.mp hd
  obtain ⟨e, _, he⟩ := List.mem_filterMap.mp hpr
  rw [← hprd]
  exact processEntry_inRange he

theorem trackDates_snd (ds : List PyDate)
    (h : ∀ d ∈ ds, inRangeDate d = true) :
    ∀ (minD maxD : Option PyDate),
      (trackDates minD maxD ds).2 = maxFoldD maxD ds := by
  induction ds with
  | nil => intro minD maxD; rfl
  | cons d ds ih =>
    intro minD maxD
    have hd := h d (by simp)
    have hds : ∀ x ∈ ds, inRangeDate x = true :=
      fun x hx => h x (by simp [hx])
    unfold trackDates maxFoldD
    simp only [List.foldl_cons]
    rw [if_pos hd]
    exact ih hds _ _

/-- The run's final `max_date` is the running maximum of the appended
records' dates. -/
theorem runFrom_maxD (since : PyDate) (pages : List Page) :
    ∀ (pageNo acc : Nat) (minD maxD : Option PyDate),
      (runFrom since pages pageNo acc minD maxD).maxD =
        maxFoldD maxD (runFrom since pages pageNo acc minD maxD).dates := by
  induction pages with
  | nil => intro pageNo acc minD maxD; rfl
  | cons p rest ih =>
    intro pageNo acc minD maxD
    by_cases h1 : p.status = 200
    · by_cases h2 : p.links = []
      · simp only [runFrom, if_neg (not_not_intro h1), if_pos h2]
        rfl
      · by_cases h3 : (p.links.filterMap (processEntry since)).map
            Prod.snd = []
        · simp only [runFrom, if_neg (not_not_intro h1), if_neg h2]
          rw [h3, if_pos rfl]
          show (trackDates minD maxD []).2 = maxFoldD maxD []
          rfl
        · simp only [runFrom, if_neg (not_not_intro h1), if_neg h2,
            if_neg h3]
          show (runFrom since rest (pageNo + 1) _ _ _).maxD = _
          rw [ih (pageNo + 1) _ _ _]
          have htrack : (trackDates minD maxD
              ((p.links.filterMap (processEntry since)).map Prod.snd)).2 =
              maxFoldD maxD
                ((p.links.filterMap (processEntry since)).map Prod.snd) :=
            trackDates_snd _ (pageDates_inRange since p.links) _ _
          rw [htrack]
          show maxFoldD
              (maxFoldD maxD
                ((p.links.filterMap (processEntry since)).map Prod.snd))
              (runFrom since rest (pageNo + 1) _ _ _).dates = _
          unfold maxFoldD
          rw [← List.foldl_append]
    · simp only [runFrom, if_pos h1]
      rfl

theorem scrapeData_maxD (since : PyDate) (pages : List Page)
    (state : Option String) (today : PyDate) :
    (scrapeData since pages state today).1.maxD =
      (runFrom since pages 1 0 none none).maxD := by
  simp only [scrapeData]
  cases hm : (runFrom since pages 1 0 none none).maxD with
  | some m => rfl
  | none =>
    cases state with
    | some s => rfl
    | none => rfl

theorem scrapeData_snd (since : PyDate) (pages : List Page)
    (state : Option String) (today : PyDate) :
    (scrapeData since pages state today).2 =
      (match (runFrom since pages 1 0 none none).maxD with
       | some m => some (isoDate m)
       | none =>
         match state with
         | some s => some s
         | none => some (isoDate today)) := by
  simp only [scrapeData]
  cases hm : (runFrom since pages 1 0 none none).maxD with
  | some m => rfl
  | none =>
    cases state with
    | some s => rfl
    | none => rfl

end Gradcafe

namespace Gradcafe

/-! ## Claims -/

/-- C1: the claim says a conflicting `url` is silently ignored by the
durable store.  Against the schema that create_schema.py actually creates
(unique indexes: the `p_id` primary key and
`UNIQUE (program, url, date_added)` only), PostgreSQL cannot infer an
arbiter index for the statement's `ON CONFLICT (url)` target, so every
insert — conflicting or not, whatever the store contents — fails with
error 42P10 instead of inserting or silently ignoring. -/
theorem insert_on_conflict_url_always_errors (store : List DbRow)
    (row : DbRow) :
    executeInsertOnConflict applicantsUniqueIndexes insertSqlConflictTarget
      store row = .error .noMatchingUniqueIndex := rfl

/-- C3: `parse_added_on` tries the five formats `%B %d, %Y`, `%b %d, %Y`,
`%Y-%m-%d`, `%m/%d/%Y`, `%d-%b-%Y` in that fixed order, returns the
range-filtered result of the first format that parses (no further formats
tried), and returns `none` when no format matches or the parsed date
falls outside [2000-01-01, 2030-12-31]; each format parses its sample
correctly. -/
theorem parse_added_on_tries_formats_in_order :
    (∀ s : String,
        parse_added_on (some s) =
          (scrapeDateFormats.findSome? fun f =>
            strptimeDate f (pyStrip s)).bind
            fun d => if inRangeDate d then some d else none) ∧
    parse_added_on none = none ∧
    parse_added_on (some "September 14, 2025") = some ⟨2025, 9, 14⟩ ∧
    parse_added_on (some "Sep 14, 2025") = some ⟨2025, 9, 14⟩ ∧
    parse_added_on (some "2025-09-14") = some ⟨2025, 9, 14⟩ ∧
    parse_added_on (some "09/14/2025") = some ⟨2025, 9, 14⟩ ∧
    parse_added_on (some "14-Sep-2025") = some ⟨2025, 9, 14⟩ ∧
    parse_added_on (some "September 14, 1999") = none ∧
    parse_added_on (some "January 1, 2031") = none ∧
    parse_added_on (some "not a date") = none := by
  refine ⟨fun s => ?_, rfl, rfl, rfl, rfl, rfl, rfl, rfl, rfl, rfl⟩
  by_cases h : s = ""
  · subst h; rfl
  · simp only [parse_added_on, if_neg h]
    exact tryFormats_findSome scrapeDateFormats (pyStrip s)

/-- C8: on `"(V/Q/W): 165/170/5.0"` the score extractor takes the field
order from the parenthesized hint itself: quant = 170, verbal = 165,
writing = 5.0. -/
theorem extract_scores_vqw_hint :
    extract_gre "(V/Q/W): 165/170/5.0" = (some 170, some 165, some 5) := by
  decide

/-- C6 counterexample: on `"AW 0"` the labeled-singleton strategy finds
the writing score `0` (one of the three results is non-empty), yet
`extract_gre` does not return strategy 1's results: Python's truthiness
test `if q or v or aw` treats the float `0.0` as false, so strategies 2-3
are consulted and every score comes back absent. -/
theorem extract_gre_zero_score_not_shortcircuit :
    labeledSingletons (pyCollapse "AW 0") = (none, none, some 0) ∧
    extract_gre "AW 0" = (none, none, none) ∧
    ((none, none, none) : Option ℚ × Option ℚ × Option ℚ) ≠
      (none, none, some 0) := by
  refine ⟨by decide, by decide, by decide⟩

/-- C6 (amended): if the labeled-singleton strategy finds at least one of
the three scores with a truthy (present and non-zero) value, the
extractor returns strategy 1's three results and strategies 2-3 are never
consulted; a found score of 0 does not trigger the short-circuit; if no
strategy yields any value, all three results are absent. -/
theorem extract_gre_strategy_one_shortcircuit :
    ∀ t : String,
      ((pyTruthyOptQ (labeledSingletons (pyCollapse t)).1 ||
          pyTruthyOptQ (labeledSingletons (pyCollapse t)).2.1 ||
          pyTruthyOptQ (labeledSingletons (pyCollapse t)).2.2) = true →
        extract_gre t = labeledSingletons (pyCollapse t)) ∧
      (labeledSingletons (pyCollapse t) = (none, none, none) →
        parenTriple (pyCollapse t) = none →
        suffixScores (pyCollapse t) = (none, none, none) →
        extract_gre t = (none, none, none)) := by
  intro t
  constructor
  · intro h
    by_cases ht : t = ""
    · rw [ht] at h; exact absurd h (by decide)
    · simp only [extract_gre, if_neg ht, h, if_true]
  · intro h1 h2 h3
    by_cases ht : t = ""
    · rw [ht]; rfl
    · simp only [extract_gre, if_neg ht, h1, h2, h3]
      decide

/-- C6 witness: `"Q 170"` triggers the strategy-1 short-circuit;
`"zzz"` yields nothing from any strategy, so all results are absent. -/
theorem extract_gre_strategy_one_shortcircuit_witness :
    extract_gre "Q 170" = (some 170, none, none) ∧
    extract_gre "zzz" = (none, none, none) := by
  constructor
  · have h := (extract_gre_strategy_one_shortcircuit "Q 170").1 (by decide)
    rw [h]; decide
  · exact (extract_gre_strategy_one_shortcircuit "zzz").2 (by decide)
      (by decide) (by decide)

/-- C7 counterexample: the claim says labels have curly apostrophes
normalized to straight ones.  `_norm_label` does no such normalization:
for the single pair with a curly-apostrophe label the stored key keeps
the curly apostrophe, and the straight-apostrophe key the claim implies
is absent. -/
theorem field_labels_keep_curly_apostrophes :
    dictGet (extract_fields
        [⟨"Degree" ++ curlyS ++ "s Country:", some "US"⟩])
      ("degree" ++ curlyS ++ "s country") = some "US" ∧
    dictGet (extract_fields
        [⟨"Degree" ++ curlyS ++ "s Country:", some "US"⟩])
      ("degree" ++ aposS ++ "s country") = none := by
  refine ⟨by decide, by decide⟩

/-- C7 (amended): the field extractor's mapping, looked up at any key,
is the last pair (document order) whose label — normalized by trimming,
lowercasing, collapsing internal whitespace and stripping a single
trailing colon, with no apostrophe normalization — equals the key and
whose normalized label and collapsed value are both non-empty; and the
code's label normalization agrees with that specification order. -/
theorem extract_fields_normalized_last_wins :
    (∀ (pairs : List DtPair) (k : String),
        dictGet (extract_fields pairs) k =
          match (pairs.filterMap specNormPair).reverse.find?
              (fun q => q.1 == k) with
          | some q => some q.2
          | none => none) ∧
    (∀ dt : String,
        norm_label ((textOf dt).getD "") =
          stripOneColon (pyCollapse (pyLower (pyStrip dt)))) :=
  ⟨extract_fields_lookup, norm_label_eq_spec⟩

/-- C10: every resolved record's status equals the decision text plus a
space plus the notification text when both detail-page fields are
present, the decision alone when only the decision is present, and is
absent whenever the decision field is absent, even if a notification is
present. -/
theorem record_status_rule :
    ∀ (since : PyDate) (e : Entry) (doc : DetailDoc),
      e.detail = some doc →
      ∀ pr ∈ processEntry since e,
        pr.1.status = statusSpec (extract_fields doc.dtdd) := by
  intro since e doc hdoc pr hpr
  rw [Option.mem_def] at hpr
  by_cases hskip : cardSkip since e = true
  · rw [processEntry_skip hskip] at hpr
    exact absurd hpr (by simp)
  · rw [processEntry_withDoc (Bool.eq_false_iff.mpr hskip) hdoc] at hpr
    cases hres : resolvedDateOf e.cardText doc with
    | none =>
      rw [processDoc_noDate hres] at hpr
      exact absurd hpr (by simp)
    | some d =>
      rw [processDoc_date hres] at hpr
      by_cases hdlt : dateLt d since = true
      · rw [if_pos hdlt] at hpr
        exact absurd hpr (by simp)
      · rw [if_neg hdlt] at hpr
        injection hpr with hpr'
        rw [← hpr']
        exact buildRecord_status doc e.detailUrl d

/-- C10 witness: a detail page with a decision and a notification
resolves to a record whose status is their concatenation. -/
theorem record_status_rule_witness :
    ∃ pr ∈ processEntry ⟨2025, 1, 1⟩ statusEntry,
      pr.1.status = some "Accepted on 01/20/2025 via E-mail" := by
  obtain ⟨pr, hpr⟩ :
      ∃ pr, processEntry ⟨2025, 1, 1⟩ statusEntry = some pr := ⟨_, rfl⟩
  refine ⟨pr, hpr, ?_⟩
  rw [record_status_rule ⟨2025, 1, 1⟩ statusEntry statusDoc rfl pr hpr]
  decide

/-- C4 counterexample: an entry whose card estimate (2020-01-01) is
before the cutoff (2025-01-01) is rejected by the early card skip even
though the detail page resolves to 2025-09-07, a valid date not before
the cutoff — so "rejected exactly when no valid date can be determined
or the resolved date is before the cutoff" is false. -/
theorem resolver_early_skip_counterexample :
    processEntry ⟨2025, 1, 1⟩ earlySkipEntry = none ∧
    resolvedDateOf earlySkipEntry.cardText sep7Doc = some ⟨2025, 9, 7⟩ ∧
    dateLt ⟨2025, 9, 7⟩ ⟨2025, 1, 1⟩ = false := by
  refine ⟨by decide, by decide, by decide⟩

/-- C4 (amended): an entry is rejected exactly when the card estimate
parses valid and is strictly before the cutoff (the early skip), or the
detail fetch fails, or no valid date can be determined from either
source, or the resolved date (detail-page value first, card estimate as
fallback) is strictly before the cutoff; every produced record carries
the resolved date; and the September-7 card-fallback instance resolves
to 2025-09-07. -/
theorem resolver_rejection_rule :
    ∀ (since : PyDate) (e : Entry),
      ((processEntry since e = none) ↔
        ((∃ d, cardAddedOf e.cardText = some d ∧ dateLt d since = true) ∨
          e.detail = none ∨
          (∃ doc, e.detail = some doc ∧
            (resolvedDateOf e.cardText doc = none ∨
              (∃ d, resolvedDateOf e.cardText doc = some d ∧
                dateLt d since = true))))) ∧
      (∀ pr ∈ processEntry since e,
        ∃ doc, e.detail = some doc ∧
          resolvedDateOf e.cardText doc = some pr.2 ∧
          pr.1.date_added = isoDate pr.2) ∧
      ((processEntry ⟨2025, 9, 1⟩ sep7CardEntry).map
          (fun pr => pr.1.date_added) = some "2025-09-07") := by
  intro since e
  have hcardiff : cardSkip since e = true ↔
      ∃ d, cardAddedOf e.cardText = some d ∧ dateLt d since = true := by
    unfold cardSkip
    cases h : cardAddedOf e.cardText with
    | none => simp
    | some d => simp
  refine ⟨?_, ?_, by decide⟩
  · by_cases hskip : cardSkip since e = true
    · constructor
      · intro _
        exact Or.inl (hcardiff.mp hskip)
      · intro _
        exact processEntry_skip hskip
    · have hskipf : cardSkip since e = false := Bool.eq_false_iff.mpr hskip
      have hnotex : ¬∃ d, cardAddedOf e.cardText = some d ∧
          dateLt d since = true := fun hx => hskip (hcardiff.mpr hx)
      cases hdet : e.detail with
      | none =>
        constructor
        · intro _
          exact Or.inr (Or.inl rfl)
        · intro _
          exact processEntry_fetchFail hskipf hdet
      | some doc =>
        rw [processEntry_withDoc hskipf hdet]
        cases hres : resolvedDateOf e.cardText doc with
        | none =>
          rw [processDoc_noDate hres]
          constructor
          · intro _
            exact Or.inr (Or.inr ⟨doc, rfl, Or.inl hres⟩)
          · intro _
            rfl
        | some d =>
          rw [processDoc_date hres]
          by_cases hdlt : dateLt d since = true
          · rw [if_pos hdlt]
            constructor
            · intro _
              exact Or.inr (Or.inr ⟨doc, rfl, Or.inr ⟨d, hres, hdlt⟩⟩)
            · intro _
              rfl
          · rw [if_neg hdlt]
            constructor
            · intro hnone
              exact absurd hnone (by simp)
            · intro hdisj
              exfalso
              rcases hdisj with hx | hdet' | ⟨doc', hdoc', hrest⟩
              · exact hnotex hx
              · exact absurd hdet' (by simp)
              · injection hdoc' with h'
                rw [← h'] at hrest
                rcases hrest with hres' | ⟨d', hd', hlt'⟩
                · rw [hres] at hres'
                  exact absurd hres' (by simp)
                · rw [hres] at hd'
                  injection hd' with h''
                  rw [← h''] at hlt'
                  exact absurd hlt' hdlt
  · intro pr hpr
    rw [Option.mem_def] at hpr
    by_cases hskip : cardSkip since e = true
    · rw [processEntry_skip hskip] at hpr
      exact absurd hpr (by simp)
    · cases hdet : e.detail with
      | none =>
        rw [processEntry_fetchFail (Bool.eq_false_iff.mpr hskip) hdet]
          at hpr
        exact absurd hpr (by simp)
      | some doc =>
        rw [processEntry_withDoc (Bool.eq_false_iff.mpr hskip) hdet] at hpr
        cases hres : resolvedDateOf e.cardText doc with
        | none =>
          rw [processDoc_noDate hres] at hpr
          exact absurd hpr (by simp)
        | some d =>
          rw [processDoc_date hres] at hpr
          by_cases hdlt : dateLt d since = true
          · rw [if_pos hdlt] at hpr
            exact absurd hpr (by simp)
          · rw [if_neg hdlt] at hpr
            injection hpr with hpr'
            refine ⟨doc, rfl, ?_, ?_⟩
            · rw [← hpr']
              exact hres
            · rw [← hpr']
              exact buildRecord_date_added doc e.detailUrl d

/-- C4 witness: an entry whose detail fetch fails is rejected. -/
theorem resolver_rejection_rule_witness :
    processEntry ⟨2025, 1, 1⟩ (⟨"", "u", none⟩ : Entry) = none :=
  (resolver_rejection_rule ⟨2025, 1, 1⟩ ⟨"", "u", none⟩).1.mpr
    (Or.inr (Or.inl rfl))

/-- C5: the listing walker fetches pages in order and never fetches a
further page after a stop condition: the number of pages fetched is
exactly one past the first page satisfying a stop condition (non-2xx
status, zero entry links, or zero entries of the page producing an
appended record), or all pages when none stops; in particular a page
with zero entry links ends the run after that page. -/
theorem walker_stops_exactly_on_stop_conditions :
    ∀ (since : PyDate) (pages : List Page),
      (runFrom since pages 1 0 none none).visited =
        min pages.length
          ((pages.takeWhile fun p => !stopsPage since p).length + 1) ∧
      ∀ (p : Page) (rest : List Page), p.links = [] →
        (runFrom since (p :: rest) 1 0 none none).visited = 1 := by
  intro since pages
  refine ⟨runFrom_visited since pages 1 0 none none, ?_⟩
  intro p rest hlinks
  rw [runFrom_visited]
  have hstop : stopsPage since p = true := by simp [stopsPage, hlinks]
  simp only [List.takeWhile_cons, hstop, Bool.not_true,
    Bool.false_eq_true, if_false, List.length_nil, List.length_cons]
  omega

/-- C5 witness: a single listing page with no entry links is fetched and
the walker stops. -/
theorem walker_stops_witness :
    (runFrom ⟨2025, 1, 1⟩ [⟨200, []⟩] 1 0 none none).visited = 1 :=
  (walker_stops_exactly_on_stop_conditions ⟨2025, 1, 1⟩ []).2
    ⟨200, []⟩ [] rfl

/-- C9 counterexample: a run whose first listing page fetch returns
HTTP 500 appends zero records, yet writes no stdout line containing the
substring `appended 0 records` (it prints the HTTP-stop line and the
summary only) — and the process then exits normally (the code `break`s
out of the loop and returns; there is no raise or `sys.exit`), not with
a non-zero status as claimed. -/
theorem first_page_failure_reports_nothing :
    (scrapeData ⟨2025, 1, 1⟩ [⟨500, []⟩] (some "2024-12-31")
        ⟨2025, 6, 1⟩).1.dates.length = 0 ∧
    ∀ l ∈ (scrapeData ⟨2025, 1, 1⟩ [⟨500, []⟩] (some "2024-12-31")
        ⟨2025, 6, 1⟩).1.out,
      ¬ List.IsInfix (appendedKey 0).data l.data := by
  refine ⟨by decide, by decide⟩

/-- C9 (amended): every run whose first listing page completes (fetch ok,
entry links present, at least one record appended) writes a stdout line
containing the literal substring `appended <N> records` where `N` equals
the count of records newly appended in that run; a run stopping on its
first page writes no such line and exits with status zero. -/
theorem run_reports_appended_count :
    ∀ (since : PyDate) (pages : List Page) (state : Option String)
      (today : PyDate),
      firstPageCompletes since pages = true →
      ∃ l ∈ (scrapeData since pages state today).1.out,
        List.IsInfix
          (appendedKey
            (scrapeData since pages state today).1.dates.length).data
          l.data := by
  intro since pages state today h
  obtain ⟨extra, hout, hdates⟩ := scrapeData_out_dates since pages state
    today
  obtain ⟨l, hl, hinf⟩ := runFrom_reports since pages 1 0 none none h
  refine ⟨l, ?_, ?_⟩
  · rw [hout]
    exact List.mem_append_left extra hl
  · rw [hdates]
    simpa using hinf

/-- C9 witness: a run with one completing page containing one qualifying
entry reports its appended count. -/
theorem run_reports_appended_count_witness :
    ∃ l ∈ (scrapeData ⟨2025, 1, 1⟩ [⟨200, [sep7CardEntry]⟩] none
        ⟨2025, 6, 1⟩).1.out,
      List.IsInfix
        (appendedKey
          (scrapeData ⟨2025, 1, 1⟩ [⟨200, [sep7CardEntry]⟩] none
            ⟨2025, 6, 1⟩).1.dates.length).data
        l.data :=
  run_reports_appended_count ⟨2025, 1, 1⟩ [⟨200, [sep7CardEntry]⟩] none
    ⟨2025, 6, 1⟩ (by decide)

/-- C2 counterexample: a run that appends zero records while the
watermark file does not exist writes today's date to the watermark —
the state is not left untouched as claimed. -/
theorem watermark_initialized_when_missing :
    (scrapeData ⟨2025, 1, 1⟩ [⟨500, []⟩] none ⟨2025, 6, 1⟩).1.dates
        = [] ∧
    (scrapeData ⟨2025, 1, 1⟩ [⟨500, []⟩] none ⟨2025, 6, 1⟩).2
        = some "2025-06-01" := by
  refine ⟨by decide, by decide⟩

/-- C2 (amended): at the end of a run the persisted watermark is written
to the maximum `date_added` observed across appended records if and only
if at least one record was appended; when zero records were appended the
watermark is left unchanged if the state file exists, and is initialized
to today's date if it does not exist. -/
theorem watermark_update_rule :
    ∀ (since : PyDate) (pages : List Page) (state : Option String)
      (today : PyDate),
      ((scrapeData since pages state today).1.dates ≠ [] →
        ∃ m, (scrapeData since pages state today).1.maxD = some m ∧
          (scrapeData since pages state today).2 = some (isoDate m) ∧
          m ∈ (scrapeData since pages state today).1.dates ∧
          ∀ d ∈ (scrapeData since pages state today).1.dates,
            dateLe d m = true) ∧
      ((scrapeData since pages state today).1.dates = [] →
        (scrapeData since pages state today).1.maxD = none ∧
        (scrapeData since pages state today).2 =
          (match state with
           | some s => some s
           | none => some (isoDate today))) := by
  intro since pages state today
  obtain ⟨extra, _, hdates⟩ := scrapeData_out_dates since pages state today
  have hmax := runFrom_maxD since pages 1 0 none none
  have hsm := scrapeData_maxD since pages state today
  have hsnd := scrapeData_snd since pages state today
  constructor
  · intro hne
    rw [hdates] at hne
    cases hds : (runFrom since pages 1 0 none none).dates with
    | nil => exact absurd hds hne
    | cons d0 ds0 =>
      obtain ⟨m, hfold, hmem, hle0, hall⟩ := maxFoldD_some ds0 d0
      have hrmax : (runFrom since pages 1 0 none none).maxD = some m := by
        rw [hmax, hds]
        exact hfold
      refine ⟨m, ?_, ?_, ?_, ?_⟩
      · rw [hsm]
        exact hrmax
      · rw [hsnd, hrmax]
      · rw [hdates, hds]
        rcases hmem with rfl | hm
        · simp
        · simp [hm]
      · intro d hd
        rw [hdates, hds] at hd
        rcases List.mem_cons.mp hd with rfl | hd
        · exact hle0
        · exact hall d hd
  · intro hnil
    rw [hdates] at hnil
    have hrmax : (runFrom since pages 1 0 none none).maxD = none := by
      rw [hmax, hnil]
      rfl
    refine ⟨?_, ?_⟩
    · rw [hsm]
      exact hrmax
    · rw [hsnd, hrmax]

/-- C2 witness: a run appending one record (dated 2025-09-07) writes
that date as the new watermark. -/
theorem watermark_update_rule_witness :
    ∃ m, (scrapeData ⟨2025, 1, 1⟩ [⟨200, [sep7CardEntry]⟩] none
        ⟨2025, 6, 1⟩).1.maxD = some m ∧
      (scrapeData ⟨2025, 1, 1⟩ [⟨200, [sep7CardEntry]⟩] none
        ⟨2025, 6, 1⟩).2 = some (isoDate m) ∧
      m ∈ (scrapeData ⟨2025, 1, 1⟩ [⟨200, [sep7CardEntry]⟩] none
        ⟨2025, 6, 1⟩).1.dates ∧
      ∀ d ∈ (scrapeData ⟨2025, 1, 1⟩ [⟨200, [sep7CardEntry]⟩] none
        ⟨2025, 6, 1⟩).1.dates, dateLe d m = true :=
  (watermark_update_rule ⟨2025, 1, 1⟩ [⟨200, [sep7CardEntry]⟩] none
    ⟨2025, 6, 1⟩).1 (by decide)

end Gradcafe
